import Mathlib

/-!
Verification development for the coffee-shop backend
(`Projectt/backend/src/api.py`): a Flask application exposing CRUD routes
over a single `Drink` resource, gated by bearer-token permissions.

The embedding below models:
* JSON values (`Json`), together with a serializer `serJson` that follows
  Python's `json.dumps` with its default separators (item separator
  `, `, key separator `: `), `ensure_ascii` escaping (including the
  `\n`, `\t`, `\r`, `\b`, `\f` shortcuts, `\uXXXX` escapes and surrogate
  pairs for astral characters), and a parser `pJson`/`jparse` for the
  serialized form, modelling the parse direction of `json.loads`;
* the drink store (rows with `id`, `title`, `recipe`), where `recipe` is
  kept as a serialized JSON string exactly as the handlers store it;
* the request handlers of `api.py` (`get_drinks`, `get_drinks_detail`,
  `post_drinks`, `patch_drinks`, `delete_drinks`), the registered error
  handlers (422, 404, `AuthError`), and the auth gate.

Integers stand in for JSON numbers; the recipes manipulated by this
application carry integer `parts` counts.
-/

/- JSON values. Arrays and objects are represented by the mutually
inductive `JArr`/`JObj` so that structural recursion and induction stay
elementary. -/
mutual
inductive Json where
  | null : Json
  | bool (b : Bool) : Json
  | num (n : Int) : Json
  | str (s : String) : Json
  | arr (xs : JArr) : Json
  | obj (xs : JObj) : Json
  deriving DecidableEq, Repr
inductive JArr where
  | nil : JArr
  | cons (hd : Json) (tl : JArr) : JArr
  deriving DecidableEq, Repr
inductive JObj where
  | nil : JObj
  | cons (k : String) (v : Json) (tl : JObj) : JObj
  deriving DecidableEq, Repr
end

/-- Build a `JArr` from a list of values. -/
def JArr.ofList : List Json → JArr
  | [] => .nil
  | v :: vs => .cons v (JArr.ofList vs)

/-- Build a `JObj` from an association list. -/
def JObj.ofList : List (String × Json) → JObj
  | [] => .nil
  | (k, v) :: kvs => .cons k v (JObj.ofList kvs)

/-- Shorthand for a JSON object literal. -/
def jobj (kvs : List (String × Json)) : Json := .obj (JObj.ofList kvs)

/-- Shorthand for a JSON array literal. -/
def jarr (vs : List Json) : Json := .arr (JArr.ofList vs)

/-- First value bound to key `k`, as Python's `dict.get` returns it. -/
def JObj.lookup : JObj → String → Option Json
  | .nil, _ => none
  | .cons k v t, key => if k = key then some v else JObj.lookup t key

/-- Remove every binding of key `key`. -/
def JObj.erase : JObj → String → JObj
  | .nil, _ => .nil
  | .cons k v t, key => if k = key then JObj.erase t key else .cons k v (JObj.erase t key)

/-- Python truthiness of a decoded JSON value: `None`, `False`, `0`, the
empty string, the empty list and the empty dict are falsy. -/
def jsonTruthy : Json → Bool
  | .null => false
  | .bool b => b
  | .num n => decide (n ≠ 0)
  | .str s => decide (s ≠ "")
  | .arr .nil => false
  | .arr (.cons _ _) => true
  | .obj .nil => false
  | .obj (.cons _ _ _) => true

/-- Numeric code point of a character. -/
def cval (c : Char) : Nat := c.toNat

/-- Decimal digit character for `n < 10`. -/
def digitChar (n : Nat) : Char := Char.ofNat (48 + n)

/-- Lowercase hexadecimal digit character for `n < 16`, as Python's
`\uXXXX` escapes are lowercase. -/
def hexDigitChar (n : Nat) : Char :=
  if n < 10 then Char.ofNat (48 + n) else Char.ofNat (87 + n)

/-- Four lowercase hex digits of `n % 65536`, most significant first. -/
def hex4 (n : Nat) : List Char :=
  [hexDigitChar (n / 4096 % 16), hexDigitChar (n / 256 % 16),
   hexDigitChar (n / 16 % 16), hexDigitChar (n % 16)]

/-- Decimal digit characters of `n`, most significant first; fuel-based
form so that the kernel can evaluate it. -/
def natCharsF : Nat → Nat → List Char
  | 0, _ => []
  | fuel + 1, n =>
    if n < 10 then [digitChar n]
    else natCharsF fuel (n / 10) ++ [digitChar (n % 10)]

/-- Decimal digit characters of `n`, most significant first. -/
def natChars (n : Nat) : List Char := natCharsF (n + 1) n

/-- The rendering does not depend on the fuel once it covers `n`. -/
theorem natCharsF_eq (fuel : Nat) : ∀ fuel2 n, n < fuel → n < fuel2 →
    natCharsF fuel n = natCharsF fuel2 n := by
  induction fuel with
  | zero => omega
  | succ f ih =>
    intro fuel2 n h h2
    cases fuel2 with
    | zero => omega
    | succ f2 =>
      rw [natCharsF, natCharsF]
      by_cases hn : n < 10
      · rw [if_pos hn, if_pos hn]
      · rw [if_neg hn, if_neg hn, ih f2 (n / 10) (by omega) (by omega)]

/-- Escape of one character inside a JSON string, following Python's
`json.dumps` with `ensure_ascii=True`: the two-character shortcuts for
quote, backslash and the common control characters, printable ASCII kept
verbatim, `\uXXXX` for other BMP characters, and a surrogate pair for
astral characters. -/
def escChar (c : Char) : List Char :=
  if c = '"' then ['\\', '"']
  else if c = '\\' then ['\\', '\\']
  else if c = '\n' then ['\\', 'n']
  else if c = '\t' then ['\\', 't']
  else if c = '\r' then ['\\', 'r']
  else if cval c = 8 then ['\\', 'b']
  else if cval c = 12 then ['\\', 'f']
  else if 32 ≤ cval c ∧ cval c ≤ 126 then [c]
  else if cval c < 65536 then '\\' :: 'u' :: hex4 (cval c)
  else '\\' :: 'u' :: hex4 (55296 + (cval c - 65536) / 1024) ++
       '\\' :: 'u' :: hex4 (56320 + (cval c - 65536) % 1024)

/-- Escape of a whole string body. -/
def escStr : List Char → List Char
  | [] => []
  | c :: cs => escChar c ++ escStr cs

/- Serialization of JSON values following `json.dumps` with the default
separators: `, ` between items and `: ` after keys. -/
mutual
def serJson : Json → List Char
  | .num n => if n < 0 then '-' :: natChars n.natAbs else natChars n.toNat
  | .str s => '"' :: escStr s.data ++ ['"']
  | .bool false => ['f', 'a', 'l', 's', 'e']
  | .bool true => ['t', 'r', 'u', 'e']
  | .null => ['n', 'u', 'l', 'l']
  | .arr xs => '[' :: serArr xs ++ [']']
  | .obj xs => '{' :: serObj xs ++ ['}']
def serArr : JArr → List Char
  | .nil => []
  | .cons h .nil => serJson h
  | .cons h (.cons h2 t) => serJson h ++ ',' :: ' ' :: serArr (.cons h2 t)
def serObj : JObj → List Char
  | .nil => []
  | .cons k v .nil => '"' :: escStr k.data ++ '"' :: ':' :: ' ' :: serJson v
  | .cons k v (.cons k2 v2 t) =>
      '"' :: escStr k.data ++ '"' :: ':' :: ' ' :: serJson v ++
      ',' :: ' ' :: serObj (.cons k2 v2 t)
end

/-- Value of a hexadecimal digit character. -/
def hexVal (c : Char) : Option Nat :=
  if 48 ≤ cval c ∧ cval c ≤ 57 then some (cval c - 48)
  else if 97 ≤ cval c ∧ cval c ≤ 102 then some (cval c - 87)
  else if 65 ≤ cval c ∧ cval c ≤ 70 then some (cval c - 55)
  else none

/-- Inverse of the two-character escapes. -/
def unescChar (e : Char) : Option Char :=
  if e = '"' then some '"'
  else if e = '\\' then some '\\'
  else if e = '/' then some '/'
  else if e = 'n' then some '\n'
  else if e = 't' then some '\t'
  else if e = 'r' then some '\r'
  else if e = 'b' then some (Char.ofNat 8)
  else if e = 'f' then some (Char.ofNat 12)
  else none

/- Parse the body of a JSON string up to (and consuming) the closing
quote, undoing the escapes of `escChar`, surrogate pairs included.
`pEsc` handles the part after a backslash. -/
mutual
def pStr : Nat → List Char → Option (List Char × List Char)
  | 0, _ => none
  | _ + 1, [] => none
  | fuel + 1, c :: rest =>
    if c = '"' then some ([], rest)
    else if c = '\\' then pEsc fuel rest
    else
      match pStr fuel rest with
      | some (scont, r) => some (c :: scont, r)
      | none => none
def pEsc : Nat → List Char → Option (List Char × List Char)
  | 0, _ => none
  | _ + 1, [] => none
  | fuel + 1, e :: rest =>
    if e = 'u' then pU fuel rest
    else
      match unescChar e with
      | some u =>
        match pStr fuel rest with
        | some (scont, r) => some (u :: scont, r)
        | none => none
      | none => none
def pU : Nat → List Char → Option (List Char × List Char)
  | 0, _ => none
  | fuel + 1, a :: b :: d :: f :: rest2 =>
    match hexVal a, hexVal b, hexVal d, hexVal f with
    | some x, some y, some z, some w =>
      let h := x * 4096 + y * 256 + z * 16 + w
      if 55296 ≤ h ∧ h < 56320 then pSurr fuel h rest2
      else if 56320 ≤ h ∧ h < 57344 then none
      else
        match pStr fuel rest2 with
        | some (scont, r) => some (Char.ofNat h :: scont, r)
        | none => none
    | _, _, _, _ => none
  | _ + 1, _ => none
def pSurr : Nat → Nat → List Char → Option (List Char × List Char)
  | 0, _, _ => none
  | fuel + 1, h, g1 :: g2 :: a2 :: b2 :: d2 :: f2 :: rest3 =>
    if g1 = '\\' ∧ g2 = 'u' then
      match hexVal a2, hexVal b2, hexVal d2, hexVal f2 with
      | some x2, some y2, some z2, some w2 =>
        let l := x2 * 4096 + y2 * 256 + z2 * 16 + w2
        if 56320 ≤ l ∧ l < 57344 then
          match pStr fuel rest3 with
          | some (scont, r) =>
              some (Char.ofNat (65536 + (h - 55296) * 1024 + (l - 56320)) :: scont, r)
          | none => none
        else none
      | _, _, _, _ => none
    else none
  | _ + 1, _, _ => none
end

/-- Decimal digit test. -/
def isDig (c : Char) : Bool := decide (48 ≤ cval c) && decide (cval c ≤ 57)

/-- Value of a decimal digit character. -/
def digVal (c : Char) : Nat := cval c - 48

/-- Value of a run of decimal digit characters. -/
def digitsVal (cs : List Char) : Nat := cs.foldl (fun v c => v * 10 + digVal c) 0

/-- Greedily parse a nonempty run of decimal digits. -/
def pNatNum (cs : List Char) : Option (Nat × List Char) :=
  let ds := cs.takeWhile isDig
  if ds.isEmpty then none
  else some (digitsVal ds, cs.dropWhile isDig)

/-- Parse a JSON integer, optionally signed. -/
def pNum : List Char → Option (Int × List Char)
  | [] => none
  | c :: cs =>
    if c = '-' then
      match pNatNum cs with
      | some (m, r) => some (-(m : Int), r)
      | none => none
    else
      match pNatNum (c :: cs) with
      | some (m, r) => some ((m : Int), r)
      | none => none

/-- Parse an exact run of keyword characters, then yield `v`. -/
def pLit : List Char → Json → List Char → Option (Json × List Char)
  | [], v, rest => some (v, rest)
  | _ :: _, _, [] => none
  | k :: ks, v, c :: rest => if c = k then pLit ks v rest else none

/-- Head-character test. -/
def headIs (cs : List Char) (k : Char) : Bool :=
  match cs with
  | c :: _ => c = k
  | [] => false

/- Recursive-descent parser for the serialized form produced by
`serJson`; `fuel` decreases on every recursive call. -/
mutual
def pJson : Nat → List Char → Option (Json × List Char)
  | 0, _ => none
  | _ + 1, [] => none
  | fuel + 1, c :: rest =>
    if c = 'n' then pLit ['u', 'l', 'l'] .null rest
    else if c = 't' then pLit ['r', 'u', 'e'] (.bool true) rest
    else if c = 'f' then pLit ['a', 'l', 's', 'e'] (.bool false) rest
    else if c = '"' then
      match pStr fuel rest with
      | some (scont, r) => some (.str (String.mk scont), r)
      | none => none
    else if c = '[' then
      if headIs rest ']' then some (.arr .nil, rest.tail)
      else
        match pArr fuel rest with
        | some (xs, r2) => some (.arr xs, r2)
        | none => none
    else if c = '{' then
      if headIs rest '}' then some (.obj .nil, rest.tail)
      else
        match pObj fuel rest with
        | some (xs, r2) => some (.obj xs, r2)
        | none => none
    else
      match pNum (c :: rest) with
      | some (n, r) => some (.num n, r)
      | none => none
def pArr : Nat → List Char → Option (JArr × List Char)
  | 0, _ => none
  | fuel + 1, cs =>
    match pJson fuel cs with
    | none => none
    | some (v, r) =>
      match r with
      | [] => none
      | c1 :: r1 =>
        if c1 = ']' then some (.cons v .nil, r1)
        else if c1 = ',' then
          match r1 with
          | [] => none
          | sp :: r2 =>
            if sp = ' ' then
              match pArr fuel r2 with
              | some (xs, r3) => some (.cons v xs, r3)
              | none => none
            else none
        else none
def pObj : Nat → List Char → Option (JObj × List Char)
  | 0, _ => none
  | fuel + 1, cs =>
    match cs with
    | [] => none
    | c :: cs2 =>
      if c = '"' then
        match pStr fuel cs2 with
        | none => none
        | some (k, r) =>
          match r with
          | [] => none
          | c1 :: r1 =>
            if c1 = ':' then
              match r1 with
              | [] => none
              | sp :: r2 =>
                if sp = ' ' then
                  match pJson fuel r2 with
                  | none => none
                  | some (v, r3) =>
                    match r3 with
                    | [] => none
                    | c2 :: r4 =>
                      if c2 = '}' then some (.cons (String.mk k) v .nil, r4)
                      else if c2 = ',' then
                        match r4 with
                        | [] => none
                        | sp2 :: r5 =>
                          if sp2 = ' ' then
                            match pObj fuel r5 with
                            | some (xs, r6) => some (.cons (String.mk k) v xs, r6)
                            | none => none
                          else none
                      else none
                else none
            else none
      else none
end

/-- Full-input parse of a serialized JSON value, modelling `json.loads`
on the canonical form produced by the serializer. -/
def jparse (cs : List Char) : Option Json :=
  match pJson (2 * cs.length + 1) cs with
  | some (v, []) => some v
  | _ => none

/-- A character's code point is a valid scalar value, so `Char.ofNat`
restores it. -/
theorem char_ofNat_cval (c : Char) : Char.ofNat (cval c) = c := by
  show Char.ofNat c.toNat = c
  have h : c.toNat.isValidChar := c.valid
  unfold Char.ofNat
  rw [dif_pos h]
  apply Char.ext
  apply UInt32.ext
  simp [Char.ofNatAux, Char.toNat, UInt32.toNat]

/-- Code point of `Char.ofNat` at a valid scalar value. -/
theorem cval_char_ofNat (n : Nat) (h : n.isValidChar) : cval (Char.ofNat n) = n := by
  show (Char.ofNat n).toNat = n
  unfold Char.ofNat
  rw [dif_pos h]
  simp [Char.ofNatAux, Char.toNat, UInt32.toNat]

/-- Validity of code points below the surrogate range. -/
theorem isValidChar_of_lt (n : Nat) (h : n < 55296) : n.isValidChar := Or.inl h

/-- Code point of a decimal digit character. -/
theorem cval_digitChar (n : Nat) (h : n < 10) : cval (digitChar n) = 48 + n := by
  unfold digitChar
  exact cval_char_ofNat _ (isValidChar_of_lt _ (by omega))

/-- Decimal digit characters are digits. -/
theorem isDig_digitChar (n : Nat) (h : n < 10) : isDig (digitChar n) = true := by
  simp [isDig, cval_digitChar n h]
  omega

/-- Digit value of a decimal digit character. -/
theorem digVal_digitChar (n : Nat) (h : n < 10) : digVal (digitChar n) = n := by
  simp [digVal, cval_digitChar n h]

/-- Hex-digit parsing inverts `hexDigitChar` on digit values. -/
theorem hexVal_hexDigitChar (n : Nat) (h : n < 16) : hexVal (hexDigitChar n) = some n := by
  unfold hexDigitChar
  by_cases h10 : n < 10
  · rw [if_pos h10]
    have hv := cval_char_ofNat (48 + n) (isValidChar_of_lt _ (by omega))
    simp [hexVal, hv]
    omega
  · rw [if_neg h10]
    have hv := cval_char_ofNat (87 + n) (isValidChar_of_lt _ (by omega))
    unfold hexVal
    rw [hv, if_neg (by omega), if_pos (by omega)]
    congr 1
    omega

/-- Unfolding of `natChars` below ten. -/
theorem natChars_small (n : Nat) (h : n < 10) : natChars n = [digitChar n] := by
  rw [natChars, natCharsF, if_pos h]

/-- Unfolding of `natChars` at ten or above. -/
theorem natChars_big (n : Nat) (h : ¬ n < 10) :
    natChars n = natChars (n / 10) ++ [digitChar (n % 10)] := by
  rw [natChars, natCharsF, if_neg h,
      natCharsF_eq n (n / 10 + 1) (n / 10) (by omega) (by omega)]
  rfl

/-- Every character of a decimal rendering is a digit. -/
theorem natChars_all_digits (n : Nat) : ∀ c ∈ natChars n, isDig c = true := by
  by_cases h : n < 10
  · rw [natChars_small n h]
    intro c hc
    simp at hc
    subst hc
    exact isDig_digitChar n h
  · rw [natChars_big n h]
    intro c hc
    rw [List.mem_append] at hc
    rcases hc with hc | hc
    · exact natChars_all_digits (n / 10) c hc
    · simp at hc
      subst hc
      exact isDig_digitChar _ (by omega)
termination_by n
decreasing_by all_goals omega

/-- A decimal rendering starts with a digit. -/
theorem natChars_head (n : Nat) : ∃ c t, natChars n = c :: t ∧ isDig c = true := by
  by_cases h : n < 10
  · exact ⟨digitChar n, [], natChars_small n h, isDig_digitChar n h⟩
  · obtain ⟨c, t, he, hd⟩ := natChars_head (n / 10)
    exact ⟨c, t ++ [digitChar (n % 10)], by rw [natChars_big n h, he]; simp, hd⟩
termination_by n
decreasing_by all_goals omega

/-- Decimal renderings evaluate back to their number. -/
theorem digitsVal_natChars (n : Nat) : digitsVal (natChars n) = n := by
  by_cases h : n < 10
  · rw [natChars_small n h]
    simp [digitsVal, digVal_digitChar n h]
  · rw [natChars_big n h]
    unfold digitsVal
    rw [List.foldl_append]
    have ih := digitsVal_natChars (n / 10)
    unfold digitsVal at ih
    rw [ih]
    simp [digVal_digitChar (n % 10) (by omega)]
    omega
termination_by n
decreasing_by all_goals omega

/-- Head test used to delimit greedy number parsing. -/
def noDigHead : List Char → Bool
  | [] => true
  | c :: _ => !(isDig c)

/-- `takeWhile` runs through a block that satisfies the test. -/
theorem takeWhile_append_all (p : Char → Bool) (l r : List Char)
    (h : ∀ c ∈ l, p c = true) : (l ++ r).takeWhile p = l ++ r.takeWhile p := by
  induction l with
  | nil => simp
  | cons c t ih =>
    simp only [List.cons_append, List.takeWhile_cons]
    rw [h c (by simp)]
    simp only [if_true]
    rw [ih (fun x hx => h x (by simp [hx]))]

/-- `dropWhile` runs through a block that satisfies the test. -/
theorem dropWhile_append_all (p : Char → Bool) (l r : List Char)
    (h : ∀ c ∈ l, p c = true) : (l ++ r).dropWhile p = r.dropWhile p := by
  induction l with
  | nil => simp
  | cons c t ih =>
    simp only [List.cons_append, List.dropWhile_cons]
    rw [h c (by simp)]
    simp only [if_true]
    exact ih (fun x hx => h x (by simp [hx]))

/-- `takeWhile isDig` stops at a non-digit boundary. -/
theorem takeWhile_noDigHead (r : List Char) (h : noDigHead r = true) :
    r.takeWhile isDig = [] := by
  cases r with
  | nil => rfl
  | cons c t =>
    simp [noDigHead] at h
    simp [List.takeWhile_cons, h]

/-- `dropWhile isDig` keeps everything after a non-digit boundary. -/
theorem dropWhile_noDigHead (r : List Char) (h : noDigHead r = true) :
    r.dropWhile isDig = r := by
  cases r with
  | nil => rfl
  | cons c t =>
    simp [noDigHead] at h
    simp [List.dropWhile_cons, h]

/-- Greedy digit parsing inverts the decimal rendering. -/
theorem pNatNum_natChars (m : Nat) (rest : List Char) (hr : noDigHead rest = true) :
    pNatNum (natChars m ++ rest) = some (m, rest) := by
  obtain ⟨c, t, he, _⟩ := natChars_head m
  simp only [pNatNum]
  rw [takeWhile_append_all _ _ _ (natChars_all_digits m), takeWhile_noDigHead rest hr,
      dropWhile_append_all _ _ _ (natChars_all_digits m), dropWhile_noDigHead rest hr,
      List.append_nil, he]
  simp only [List.isEmpty_cons, Bool.false_eq_true, if_false]
  rw [← he, digitsVal_natChars m]

/-- Digits are not the minus sign. -/
theorem isDig_ne_minus (c : Char) (h : isDig c = true) : c ≠ '-' := by
  intro hc
  subst hc
  have hm : isDig '-' = false := by decide
  rw [hm] at h
  exact Bool.false_ne_true h

/-- Number parsing inverts number serialization. -/
theorem pNum_ser (n : Int) (rest : List Char) (hr : noDigHead rest = true) :
    pNum (serJson (.num n) ++ rest) = some (n, rest) := by
  rw [serJson]
  by_cases h : n < 0
  · rw [if_pos h]
    show pNum ('-' :: (natChars n.natAbs ++ rest)) = some (n, rest)
    rw [pNum, if_pos rfl, pNatNum_natChars n.natAbs rest hr]
    show some (-(n.natAbs : Int), rest) = some (n, rest)
    have hn : -(n.natAbs : Int) = n := by omega
    rw [hn]
  · rw [if_neg h]
    obtain ⟨c, t, he, hd⟩ := natChars_head n.toNat
    rw [he]
    show pNum (c :: (t ++ rest)) = some (n, rest)
    rw [pNum, if_neg (isDig_ne_minus c hd)]
    have hc : c :: (t ++ rest) = natChars n.toNat ++ rest := by rw [he]; rfl
    rw [hc, pNatNum_natChars n.toNat rest hr]
    show some ((n.toNat : Int), rest) = some (n, rest)
    have hn : (n.toNat : Int) = n := by omega
    rw [hn]

/-- Closing quote ends a string body. -/
theorem pStr_quote (fuel : Nat) (y : List Char) : pStr (fuel + 1) ('"' :: y) = some ([], y) := rfl

/-- Backslash defers to the escape parser. -/
theorem pStr_backslash (fuel : Nat) (y : List Char) : pStr (fuel + 1) ('\\' :: y) = pEsc fuel y := rfl

/-- Unescaped characters are taken verbatim. -/
theorem pStr_plain (fuel : Nat) (c : Char) (y : List Char) (h1 : ¬ c = '"') (h2 : ¬ c = '\\') :
    pStr (fuel + 1) (c :: y) =
      match pStr fuel y with
      | some (sc, r) => some (c :: sc, r)
      | none => none := by
  rw [pStr, if_neg h1, if_neg h2]

/-- Two-character escapes round-trip through `pEsc`. -/
theorem pEsc_shortcut (fuel : Nat) (e u : Char) (y cs r : List Char)
    (hne : ¬ e = 'u') (hun : unescChar e = some u)
    (hstr : pStr fuel y = some (cs, r)) :
    pEsc (fuel + 1) (e :: y) = some (u :: cs, r) := by
  rw [pEsc, if_neg hne, hun]
  dsimp only []
  rw [hstr]

/-- Unicode escapes defer to the hex parser. -/
theorem pEsc_u (fuel : Nat) (y : List Char) : pEsc (fuel + 1) ('u' :: y) = pU fuel y := rfl

/-- Step lemma: a two-character escape at the head of a string body. -/
theorem pStr_esc_step (k ek : Char) (cs rest : List Char) (f2 : Nat)
    (hk : escChar k = ['\\', ek]) (hne : ¬ ek = 'u') (hun : unescChar ek = some k)
    (hp : pStr f2 (escStr cs ++ '"' :: rest) = some (cs, rest)) :
    pStr (f2 + 2) (escStr (k :: cs) ++ '"' :: rest) = some (k :: cs, rest) := by
  have hsplit : escStr (k :: cs) = escChar k ++ escStr cs := rfl
  rw [hsplit, hk, List.append_assoc]
  simp only [List.cons_append, List.nil_append]
  rw [pStr_backslash]
  exact pEsc_shortcut f2 ek k _ cs rest hne hun hp

/-- String bodies round-trip: parsing the escaped text recovers the
original characters and consumes the closing quote. -/
theorem pStr_escStr (s : List Char) : ∀ fuel rest, 2 * (escStr s).length < fuel →
    pStr fuel (escStr s ++ '"' :: rest) = some (s, rest) := by
  induction s with
  | nil =>
    intro fuel rest hf
    obtain ⟨f2, rfl⟩ : ∃ f2, fuel = f2 + 1 := ⟨fuel - 1, by omega⟩
    exact pStr_quote f2 rest
  | cons c cs ih =>
    intro fuel rest hf
    have hsplit : escStr (c :: cs) = escChar c ++ escStr cs := rfl
    rw [hsplit, List.length_append] at hf
    by_cases h1 : c = '"'
    · subst h1
      rw [show escChar '"' = ['\\', '"'] from rfl] at hf
      simp only [List.length_cons, List.length_nil] at hf
      obtain ⟨f2, rfl⟩ : ∃ f2, fuel = f2 + 2 := ⟨fuel - 2, by omega⟩
      exact pStr_esc_step '"' '"' cs rest f2 rfl (by decide) rfl (ih f2 rest (by omega))
    by_cases h2 : c = '\\'
    · subst h2
      rw [show escChar '\\' = ['\\', '\\'] from rfl] at hf
      simp only [List.length_cons, List.length_nil] at hf
      obtain ⟨f2, rfl⟩ : ∃ f2, fuel = f2 + 2 := ⟨fuel - 2, by omega⟩
      exact pStr_esc_step '\\' '\\' cs rest f2 rfl (by decide) rfl (ih f2 rest (by omega))
    by_cases h3 : c = '\n'
    · subst h3
      rw [show escChar '\n' = ['\\', 'n'] from rfl] at hf
      simp only [List.length_cons, List.length_nil] at hf
      obtain ⟨f2, rfl⟩ : ∃ f2, fuel = f2 + 2 := ⟨fuel - 2, by omega⟩
      exact pStr_esc_step '\n' 'n' cs rest f2 rfl (by decide) rfl (ih f2 rest (by omega))
    by_cases h4 : c = '\t'
    · subst h4
      rw [show escChar '\t' = ['\\', 't'] from rfl] at hf
      simp only [List.length_cons, List.length_nil] at hf
      obtain ⟨f2, rfl⟩ : ∃ f2, fuel = f2 + 2 := ⟨fuel - 2, by omega⟩
      exact pStr_esc_step '\t' 't' cs rest f2 rfl (by decide) rfl (ih f2 rest (by omega))
    by_cases h5 : c = '\r'
    · subst h5
      rw [show escChar '\r' = ['\\', 'r'] from rfl] at hf
      simp only [List.length_cons, List.length_nil] at hf
      obtain ⟨f2, rfl⟩ : ∃ f2, fuel = f2 + 2 := ⟨fuel - 2, by omega⟩
      exact pStr_esc_step '\r' 'r' cs rest f2 rfl (by decide) rfl (ih f2 rest (by omega))
    by_cases h6 : cval c = 8
    · have hc : c = Char.ofNat 8 := by rw [← char_ofNat_cval c, h6]
      subst hc
      rw [show escChar (Char.ofNat 8) = ['\\', 'b'] from rfl] at hf
      simp only [List.length_cons, List.length_nil] at hf
      obtain ⟨f2, rfl⟩ : ∃ f2, fuel = f2 + 2 := ⟨fuel - 2, by omega⟩
      exact pStr_esc_step (Char.ofNat 8) 'b' cs rest f2 rfl (by decide) rfl
        (ih f2 rest (by omega))
    by_cases h7 : cval c = 12
    · have hc : c = Char.ofNat 12 := by rw [← char_ofNat_cval c, h7]
      subst hc
      rw [show escChar (Char.ofNat 12) = ['\\', 'f'] from rfl] at hf
      simp only [List.length_cons, List.length_nil] at hf
      obtain ⟨f2, rfl⟩ : ∃ f2, fuel = f2 + 2 := ⟨fuel - 2, by omega⟩
      exact pStr_esc_step (Char.ofNat 12) 'f' cs rest f2 rfl (by decide) rfl
        (ih f2 rest (by omega))
    by_cases h8 : 32 ≤ cval c ∧ cval c ≤ 126
    · have hec : escChar c = [c] := by
        unfold escChar
        rw [if_neg h1, if_neg h2, if_neg h3, if_neg h4, if_neg h5, if_neg h6, if_neg h7,
            if_pos h8]
      rw [hec] at hf
      simp only [List.length_cons, List.length_nil] at hf
      obtain ⟨f2, rfl⟩ : ∃ f2, fuel = f2 + 1 := ⟨fuel - 1, by omega⟩
      rw [hsplit, hec, List.append_assoc]
      simp only [List.cons_append, List.nil_append]
      rw [pStr_plain f2 c _ h1 h2, ih f2 rest (by omega)]
    by_cases h9 : cval c < 65536
    · have hval : cval c < 55296 ∨ 57343 < cval c ∧ cval c < 1114112 := c.valid
      have hec : escChar c = '\\' :: 'u' :: hex4 (cval c) := by
        unfold escChar
        rw [if_neg h1, if_neg h2, if_neg h3, if_neg h4, if_neg h5, if_neg h6, if_neg h7,
            if_neg h8, if_pos h9]
      rw [hec, hex4] at hf
      simp only [List.length_cons, List.length_nil] at hf
      obtain ⟨f3, rfl⟩ : ∃ f3, fuel = f3 + 3 := ⟨fuel - 3, by omega⟩
      rw [hsplit, hec, hex4, List.append_assoc]
      simp only [List.cons_append, List.nil_append]
      rw [pStr_backslash, pEsc_u, pU,
          hexVal_hexDigitChar (cval c / 4096 % 16) (by omega),
          hexVal_hexDigitChar (cval c / 256 % 16) (by omega),
          hexVal_hexDigitChar (cval c / 16 % 16) (by omega),
          hexVal_hexDigitChar (cval c % 16) (by omega)]
      dsimp only []
      have hv : cval c / 4096 % 16 * 4096 + cval c / 256 % 16 * 256 +
          cval c / 16 % 16 * 16 + cval c % 16 = cval c := by omega
      rw [hv, if_neg (by omega), if_neg (by omega), ih f3 rest (by omega)]
      dsimp only []
      rw [char_ofNat_cval]
    · have hval : cval c < 55296 ∨ 57343 < cval c ∧ cval c < 1114112 := c.valid
      have hec : escChar c = '\\' :: 'u' :: hex4 (55296 + (cval c - 65536) / 1024) ++
          '\\' :: 'u' :: hex4 (56320 + (cval c - 65536) % 1024) := by
        unfold escChar
        rw [if_neg h1, if_neg h2, if_neg h3, if_neg h4, if_neg h5, if_neg h6, if_neg h7,
            if_neg h8, if_neg h9]
      rw [hec] at hf
      simp only [hex4, List.length_append, List.length_cons, List.length_nil] at hf
      obtain ⟨f4, rfl⟩ : ∃ f4, fuel = f4 + 4 := ⟨fuel - 4, by omega⟩
      rw [hsplit, hec, List.append_assoc]
      simp only [hex4, List.cons_append, List.nil_append, List.append_assoc]
      rw [pStr_backslash, pEsc_u, pU,
          hexVal_hexDigitChar ((55296 + (cval c - 65536) / 1024) / 4096 % 16) (by omega),
          hexVal_hexDigitChar ((55296 + (cval c - 65536) / 1024) / 256 % 16) (by omega),
          hexVal_hexDigitChar ((55296 + (cval c - 65536) / 1024) / 16 % 16) (by omega),
          hexVal_hexDigitChar ((55296 + (cval c - 65536) / 1024) % 16) (by omega)]
      dsimp only []
      have hv1 : (55296 + (cval c - 65536) / 1024) / 4096 % 16 * 4096 +
          (55296 + (cval c - 65536) / 1024) / 256 % 16 * 256 +
          (55296 + (cval c - 65536) / 1024) / 16 % 16 * 16 +
          (55296 + (cval c - 65536) / 1024) % 16 = 55296 + (cval c - 65536) / 1024 := by
        omega
      rw [hv1, if_pos (by omega), pSurr, if_pos ⟨rfl, rfl⟩,
          hexVal_hexDigitChar ((56320 + (cval c - 65536) % 1024) / 4096 % 16) (by omega),
          hexVal_hexDigitChar ((56320 + (cval c - 65536) % 1024) / 256 % 16) (by omega),
          hexVal_hexDigitChar ((56320 + (cval c - 65536) % 1024) / 16 % 16) (by omega),
          hexVal_hexDigitChar ((56320 + (cval c - 65536) % 1024) % 16) (by omega)]
      dsimp only []
      have hv2 : (56320 + (cval c - 65536) % 1024) / 4096 % 16 * 4096 +
          (56320 + (cval c - 65536) % 1024) / 256 % 16 * 256 +
          (56320 + (cval c - 65536) % 1024) / 16 % 16 * 16 +
          (56320 + (cval c - 65536) % 1024) % 16 = 56320 + (cval c - 65536) % 1024 := by
        omega
      rw [hv2, if_pos (by omega), ih f4 rest (by omega)]
      dsimp only []
      have harg : 65536 + (55296 + (cval c - 65536) / 1024 - 55296) * 1024 +
          (56320 + (cval c - 65536) % 1024 - 56320) = cval c := by omega
      rw [harg, char_ofNat_cval]

/-- Rebuilding a string from its character data is the identity. -/
theorem string_mk_data (s : String) : String.mk s.data = s := by cases s; rfl

/-- A digit character differs from any non-digit character. -/
theorem isDig_ne (c k : Char) (hc : isDig c = true) (hk : isDig k = false) : ¬ c = k := by
  intro h
  subst h
  rw [hc] at hk
  cases hk

/-- Serializations start with a dispatchable character. -/
theorem serJson_head (v : Json) : ∃ c t, serJson v = c :: t ∧
    (c = 'n' ∨ c = 't' ∨ c = 'f' ∨ c = '"' ∨ c = '[' ∨ c = '{' ∨ c = '-' ∨ isDig c = true) := by
  cases v with
  | null => exact ⟨'n', _, rfl, by tauto⟩
  | bool b =>
    cases b with
    | true => exact ⟨'t', _, rfl, by tauto⟩
    | false => exact ⟨'f', _, rfl, by tauto⟩
  | num n =>
    by_cases h : n < 0
    · exact ⟨'-', _, by rw [serJson, if_pos h], by tauto⟩
    · obtain ⟨c, t, he, hd⟩ := natChars_head n.toNat
      exact ⟨c, t, by rw [serJson, if_neg h, he], by tauto⟩
  | str s => exact ⟨'"', _, rfl, by tauto⟩
  | arr xs => exact ⟨'[', _, rfl, by tauto⟩
  | obj xs => exact ⟨'{', _, rfl, by tauto⟩

/-- The head character of a serialization is never a closing bracket. -/
theorem serJson_head_ne (v : Json) : ∃ c t, serJson v = c :: t ∧ ¬ c = ']' ∧ ¬ c = '}' := by
  obtain ⟨c, t, he, hopt⟩ := serJson_head v
  refine ⟨c, t, he, ?_, ?_⟩
  · rcases hopt with h | h | h | h | h | h | h | h
    all_goals first
      | (subst h; decide)
      | (exact isDig_ne c ']' h (by decide))
  · rcases hopt with h | h | h | h | h | h | h | h
    all_goals first
      | (subst h; decide)
      | (exact isDig_ne c '}' h (by decide))

/-- Keyword parsing accepts exactly the keyword. -/
theorem pLit_self (v : Json) : ∀ ks rest, pLit ks v (ks ++ rest) = some (v, rest) := by
  intro ks
  induction ks with
  | nil => intro rest; rfl
  | cons k ks ih =>
    intro rest
    show pLit (k :: ks) v (k :: (ks ++ rest)) = some (v, rest)
    rw [pLit, if_pos rfl]
    exact ih rest

/- Roundtrip: parsing a serialized value recovers the value and leaves the
trailing input untouched, given enough fuel and a non-digit boundary. -/
mutual
theorem pJson_ser : ∀ (v : Json) (fuel : Nat) (rest : List Char),
    2 * (serJson v).length < fuel → noDigHead rest = true →
    pJson fuel (serJson v ++ rest) = some (v, rest)
  | .null => by
    intro fuel rest hf hr
    obtain ⟨f, rfl⟩ : ∃ f, fuel = f + 1 := ⟨fuel - 1, by omega⟩
    show pJson (f + 1) (['n', 'u', 'l', 'l'] ++ rest) = some (.null, rest)
    simp only [List.cons_append, List.nil_append]
    rw [pJson, if_pos rfl]
    exact pLit_self .null ['u', 'l', 'l'] rest
  | .bool true => by
    intro fuel rest hf hr
    obtain ⟨f, rfl⟩ : ∃ f, fuel = f + 1 := ⟨fuel - 1, by omega⟩
    show pJson (f + 1) (['t', 'r', 'u', 'e'] ++ rest) = some (.bool true, rest)
    simp only [List.cons_append, List.nil_append]
    rw [pJson, if_neg (by decide), if_pos rfl]
    exact pLit_self (.bool true) ['r', 'u', 'e'] rest
  | .bool false => by
    intro fuel rest hf hr
    obtain ⟨f, rfl⟩ : ∃ f, fuel = f + 1 := ⟨fuel - 1, by omega⟩
    show pJson (f + 1) (['f', 'a', 'l', 's', 'e'] ++ rest) = some (.bool false, rest)
    simp only [List.cons_append, List.nil_append]
    rw [pJson, if_neg (by decide), if_neg (by decide), if_pos rfl]
    exact pLit_self (.bool false) ['a', 'l', 's', 'e'] rest
  | .num n => by
    intro fuel rest hf hr
    obtain ⟨f, rfl⟩ : ∃ f, fuel = f + 1 := ⟨fuel - 1, by omega⟩
    have hp := pNum_ser n rest hr
    by_cases hn : n < 0
    · rw [serJson, if_pos hn] at hp ⊢
      simp only [List.cons_append] at hp ⊢
      rw [pJson, if_neg (by decide), if_neg (by decide), if_neg (by decide),
          if_neg (by decide), if_neg (by decide), if_neg (by decide), hp]
    · rw [serJson, if_neg hn] at hp ⊢
      obtain ⟨c, t, he, hd⟩ := natChars_head n.toNat
      rw [he] at hp ⊢
      simp only [List.cons_append] at hp ⊢
      rw [pJson, if_neg (isDig_ne c 'n' hd (by decide)),
          if_neg (isDig_ne c 't' hd (by decide)),
          if_neg (isDig_ne c 'f' hd (by decide)),
          if_neg (isDig_ne c '"' hd (by decide)),
          if_neg (isDig_ne c '[' hd (by decide)),
          if_neg (isDig_ne c '{' hd (by decide)), hp]
  | .str s => by
    intro fuel rest hf hr
    rw [serJson] at hf ⊢
    simp only [List.length_cons, List.length_append, List.length_nil] at hf
    obtain ⟨f, rfl⟩ : ∃ f, fuel = f + 1 := ⟨fuel - 1, by omega⟩
    simp only [List.cons_append, List.append_assoc, List.singleton_append, List.nil_append]
    rw [pJson, if_neg (by decide), if_neg (by decide), if_neg (by decide), if_pos rfl,
        pStr_escStr s.data f rest (by omega)]
  | .arr .nil => by
    intro fuel rest hf hr
    obtain ⟨f, rfl⟩ : ∃ f, fuel = f + 1 := ⟨fuel - 1, by omega⟩
    show pJson (f + 1) (('[' :: serArr .nil ++ [']']) ++ rest) = some (.arr .nil, rest)
    simp only [serArr, List.nil_append, List.cons_append, List.singleton_append]
    rw [pJson, if_neg (by decide), if_neg (by decide), if_neg (by decide),
        if_neg (by decide), if_pos rfl, if_pos (show headIs (']' :: rest) ']' = true from rfl)]
    rfl
  | .arr (.cons h t) => by
    intro fuel rest hf hr
    rw [serJson] at hf ⊢
    simp only [List.length_cons, List.length_append, List.length_nil] at hf
    obtain ⟨f, rfl⟩ : ∃ f, fuel = f + 1 := ⟨fuel - 1, by omega⟩
    simp only [List.cons_append, List.append_assoc, List.singleton_append, List.nil_append]
    obtain ⟨c, t2, he, hne1, hne2⟩ := serJson_head_ne h
    have he3 : ∃ t3, serArr (.cons h t) = c :: t3 := by
      cases t with
      | nil => exact ⟨t2, by rw [serArr, he]⟩
      | cons h2 t4 =>
        exact ⟨t2 ++ ',' :: ' ' :: serArr (.cons h2 t4), by rw [serArr, he]; rfl⟩
    obtain ⟨t3, he3⟩ := he3
    have hh : headIs (serArr (JArr.cons h t) ++ ']' :: rest) ']' = false := by
      rw [he3]
      show headIs (c :: (t3 ++ ']' :: rest)) ']' = false
      simp [headIs, hne1]
    rw [pJson, if_neg (by decide), if_neg (by decide), if_neg (by decide),
        if_neg (by decide), if_pos rfl, hh, if_neg (by decide),
        pArr_ser h t f rest (by omega)]
  | .obj .nil => by
    intro fuel rest hf hr
    obtain ⟨f, rfl⟩ : ∃ f, fuel = f + 1 := ⟨fuel - 1, by omega⟩
    show pJson (f + 1) (('{' :: serObj .nil ++ ['}']) ++ rest) = some (.obj .nil, rest)
    simp only [serObj, List.nil_append, List.cons_append, List.singleton_append]
    rw [pJson, if_neg (by decide), if_neg (by decide), if_neg (by decide),
        if_neg (by decide), if_neg (by decide), if_pos rfl,
        if_pos (show headIs ('}' :: rest) '}' = true from rfl)]
    rfl
  | .obj (.cons k v t) => by
    intro fuel rest hf hr
    rw [serJson] at hf ⊢
    simp only [List.length_cons, List.length_append, List.length_nil] at hf
    obtain ⟨f, rfl⟩ : ∃ f, fuel = f + 1 := ⟨fuel - 1, by omega⟩
    simp only [List.cons_append, List.append_assoc, List.singleton_append, List.nil_append]
    have he3 : ∃ t3, serObj (.cons k v t) = '"' :: t3 := by
      cases t with
      | nil => exact ⟨_, rfl⟩
      | cons k2 v2 t4 => exact ⟨_, rfl⟩
    obtain ⟨t3, he3⟩ := he3
    have hh : headIs (serObj (JObj.cons k v t) ++ '}' :: rest) '}' = false := by
      rw [he3]
      show headIs ('"' :: (t3 ++ '}' :: rest)) '}' = false
      simp [headIs]
    rw [pJson, if_neg (by decide), if_neg (by decide), if_neg (by decide),
        if_neg (by decide), if_neg (by decide), if_pos rfl, hh, if_neg (by decide),
        pObj_ser k v t f rest (by omega)]
termination_by v => sizeOf v
decreasing_by all_goals simp_wf
theorem pArr_ser : ∀ (h : Json) (t : JArr) (fuel : Nat) (rest : List Char),
    2 * (serArr (.cons h t)).length + 1 < fuel →
    pArr fuel (serArr (.cons h t) ++ ']' :: rest) = some (JArr.cons h t, rest)
  | h, .nil => by
    intro fuel rest hf
    obtain ⟨f, rfl⟩ : ∃ f, fuel = f + 1 := ⟨fuel - 1, by omega⟩
    rw [serArr] at hf ⊢
    rw [pArr, pJson_ser h f (']' :: rest) (by omega) rfl]
    dsimp only []
    rw [if_pos rfl]
  | h, .cons h2 t2 => by
    intro fuel rest hf
    obtain ⟨f, rfl⟩ : ∃ f, fuel = f + 1 := ⟨fuel - 1, by omega⟩
    rw [serArr] at hf ⊢
    simp only [List.length_append, List.length_cons] at hf
    simp only [List.append_assoc, List.cons_append]
    rw [pArr, pJson_ser h f (',' :: ' ' :: (serArr (.cons h2 t2) ++ ']' :: rest))
        (by omega) rfl]
    dsimp only []
    rw [if_neg (by decide), if_pos rfl, if_pos rfl, pArr_ser h2 t2 f rest (by omega)]
termination_by h t => sizeOf (JArr.cons h t)
decreasing_by all_goals (simp_wf <;> omega)
theorem pObj_ser : ∀ (k : String) (v : Json) (t : JObj) (fuel : Nat) (rest : List Char),
    2 * (serObj (.cons k v t)).length + 1 < fuel →
    pObj fuel (serObj (.cons k v t) ++ '}' :: rest) = some (JObj.cons k v t, rest)
  | k, v, .nil => by
    intro fuel rest hf
    obtain ⟨f, rfl⟩ : ∃ f, fuel = f + 1 := ⟨fuel - 1, by omega⟩
    rw [serObj] at hf ⊢
    simp only [List.length_cons, List.length_append, List.length_nil] at hf
    simp only [List.cons_append, List.append_assoc]
    rw [pObj, if_pos rfl,
        pStr_escStr k.data f (':' :: ' ' :: (serJson v ++ '}' :: rest)) (by omega)]
    dsimp only []
    rw [if_pos rfl, if_pos rfl, pJson_ser v f ('}' :: rest) (by omega) rfl]
    dsimp only []
    rw [if_pos rfl, string_mk_data]
  | k, v, .cons k2 v2 t2 => by
    intro fuel rest hf
    obtain ⟨f, rfl⟩ : ∃ f, fuel = f + 1 := ⟨fuel - 1, by omega⟩
    rw [serObj] at hf ⊢
    simp only [List.length_cons, List.length_append, List.length_nil] at hf
    simp only [List.cons_append, List.append_assoc]
    rw [pObj, if_pos rfl,
        pStr_escStr k.data f
          (':' :: ' ' :: (serJson v ++ ',' :: ' ' :: (serObj (.cons k2 v2 t2) ++ '}' :: rest)))
          (by omega)]
    dsimp only []
    rw [if_pos rfl, if_pos rfl,
        pJson_ser v f (',' :: ' ' :: (serObj (.cons k2 v2 t2) ++ '}' :: rest)) (by omega) rfl]
    dsimp only []
    rw [if_neg (by decide), if_pos rfl, if_pos rfl, pObj_ser k2 v2 t2 f rest (by omega),
        string_mk_data]
termination_by k v t => sizeOf (JObj.cons k v t)
decreasing_by all_goals (simp_wf <;> omega)
end

/-- Full roundtrip: `json.loads` recovers any value from its
`json.dumps` serialization. -/
theorem jparse_serJson (v : Json) : jparse (serJson v) = some v := by
  have h := pJson_ser v (2 * (serJson v).length + 1) [] (by omega) rfl
  rw [List.append_nil] at h
  unfold jparse
  rw [h]

/-- A drink row as persisted by the store: `models.py` is not under
`src/`, so the record follows the spec's data model (§3): integer `id`
assigned by the store, a `title`, and a `recipe` kept as a serialized
structured value. The `title` is carried as the JSON value the handler
received, as the handlers store `body['title']` unexamined. -/
structure Drink where
  id : Nat
  title : Json
  recipe : List Char
  deriving DecidableEq, Repr

/-- The persistent drink store: rows plus the next id the store will
assign (ids are store-owned and monotonically assigned, spec §3/§4.3). -/
structure Storage where
  rows : List Drink
  nextId : Nat
  deriving DecidableEq, Repr

/-- Insertion into a list sorted by ascending id. -/
def insertById (d : Drink) : List Drink → List Drink
  | [] => [d]
  | e :: es => if d.id ≤ e.id then d :: e :: es else e :: insertById d es

/-- Sort rows by ascending id: the model of
`Drink.query.order_by(Drink.id).all()`. -/
def sortById : List Drink → List Drink
  | [] => []
  | d :: ds => insertById d (sortById ds)

/-- Modelled from the spec: the short-form recipe projection of
`Drink.short` in `models.py` (not under `src/`): `parts` is omitted from
each recipe element (spec §3, §6). -/
def stripPartsElem : Json → Json
  | .obj fs => .obj (fs.erase "parts")
  | v => v

/-- Map a function over a JSON array. -/
def mapJArr (f : Json → Json) : JArr → JArr
  | .nil => .nil
  | .cons h t => .cons (f h) (mapJArr f t)

/-- Modelled from the spec: `parts` removed from the recipe value,
whether it is a sequence of ingredient specs or a single spec (§3). -/
def stripParts : Json → Json
  | .arr xs => .arr (mapJArr stripPartsElem xs)
  | .obj fs => .obj (fs.erase "parts")
  | v => v

/-- Modelled from the spec: `Drink.long` from `models.py` (not under
`src/`): id, title, and the decoded recipe with `parts` included; the
recipe string is decoded as `json.loads(self.recipe)` does, and a decode
failure propagates as an unhandled exception (`none` here). -/
def Drink.long (d : Drink) : Option Json :=
  match jparse d.recipe with
  | some r => some (jobj [("id", .num (d.id : Int)), ("title", d.title), ("recipe", r)])
  | none => none

/-- Modelled from the spec: `Drink.short` from `models.py` (not under
`src/`): like `long` but with `parts` omitted from the recipe. -/
def Drink.short (d : Drink) : Option Json :=
  match jparse d.recipe with
  | some r =>
      some (jobj [("id", .num (d.id : Int)), ("title", d.title), ("recipe", stripParts r)])
  | none => none

/-- Body of an HTTP response: a `jsonify` payload, or a framework-default
HTML page. -/
inductive RBody where
  | json (v : Json)
  | html (page : String)
  deriving DecidableEq, Repr

/-- An HTTP response of the application. -/
structure Response where
  status : Nat
  body : RBody
  deriving DecidableEq, Repr

/-- The 422 error handler registered in `api.py` (`@app.errorhandler(422)`). -/
def unprocessable : Response :=
  ⟨422, .json (jobj [("success", .bool false), ("error", .num 422),
                     ("message", .str "unprocessable")])⟩

/-- The 404 error handler registered in `api.py` (`@app.errorhandler(404)`). -/
def resource_not_found : Response :=
  ⟨404, .json (jobj [("success", .bool false), ("error", .num 404),
                     ("message", .str "resource not found")])⟩

/-- The data carried by an `AuthError` raised in `auth/auth.py`: an HTTP
status code and a description string. -/
structure AuthErrorData where
  status_code : Nat
  description : String
  deriving DecidableEq, Repr

/-- The `AuthError` handler registered in `api.py` (`auth_error`): renders
the envelope from the error's own status code and description. -/
def auth_error (e : AuthErrorData) : Response :=
  ⟨e.status_code, .json (jobj [("success", .bool false),
                               ("error", .num (e.status_code : Int)),
                               ("message", .str e.description)])⟩

/-- Flask's built-in fallback for exceptions with no registered handler:
HTTP 500 with the default HTML page, not the JSON envelope (`api.py`
registers handlers only for 422, 404 and `AuthError`). -/
def internal_server_error : Response :=
  ⟨500, .html "<!doctype html><title>500 Internal Server Error</title>"⟩

/-- Modelled from the spec: the decoded claim set of a verified token
(§3 AuthToken, §4.2); `auth/auth.py` is not under `src/`. `none` models a
token issued without permission scoping. -/
structure Claims where
  permissions : Option (List String)
  deriving DecidableEq, Repr

/-- Modelled from the spec: the authorization situation of one request as
the Token Verifier sees it (§4.1): no `Authorization` header, a malformed
header, a token failing signature/parse, expiry, or audience/issuer
checks, or a verified token carrying claims. The cryptographic check is
an external collaborator and is abstracted by its outcome. -/
inductive AuthCtx where
  | missingHeader
  | malformedHeader
  | invalidToken
  | expiredToken
  | invalidClaims
  | verified (claims : Claims)
  deriving DecidableEq, Repr

/-- Modelled from the spec: `requires_auth` from `auth/auth.py` (not
under `src/`), per §4.1, §4.2 and §7: header and token failures map to
401, claims without permissions to 400 (`permissions_missing`), a
missing required permission to 403 (`unauthorized`); success returns the
decoded claims unchanged. -/
def requires_auth (permission : String) : AuthCtx → Except AuthErrorData Claims
  | .missingHeader => .error ⟨401, "authorization_header_missing"⟩
  | .malformedHeader => .error ⟨401, "invalid_header"⟩
  | .invalidToken => .error ⟨401, "invalid_token"⟩
  | .expiredToken => .error ⟨401, "token_expired"⟩
  | .invalidClaims => .error ⟨401, "invalid_claims"⟩
  | .verified c =>
    match c.permissions with
    | none => .error ⟨400, "permissions_missing"⟩
    | some ps => if permission ∈ ps then .ok c else .error ⟨403, "unauthorized"⟩

/-- The routes of `api.py`. -/
inductive Route where
  | drinksGet
  | drinksDetailGet
  | drinksPost
  | drinksPatch
  | drinksDelete
  deriving DecidableEq, Repr

/-- Permission gating per route, read off the `requires_auth` decorators
in `api.py`; `GET /drinks` is public. -/
def requiredPermission : Route → Option String
  | .drinksGet => none
  | .drinksDetailGet => some "get:drinks-detail"
  | .drinksPost => some "post:drinks"
  | .drinksPatch => some "patch:drinks"
  | .drinksDelete => some "delete:drinks"

/-- Apply a partial function across a list, failing if any element fails
(the handlers' list comprehensions raise on the first bad row). -/
def mapOpt (f : α → Option β) : List α → Option (List β)
  | [] => some []
  | a :: as =>
    match f a, mapOpt f as with
    | some b, some bs => some (b :: bs)
    | _, _ => none

/-- The 200 success envelope with a `drinks` array. -/
def okDrinks (ds : List Json) : Response :=
  ⟨200, .json (jobj [("success", .bool true), ("drinks", jarr ds)])⟩

/-- `GET /drinks` (`api.py` 30-40): public route; returns every drink in
short form, ordered by ascending id. A stored recipe that failed to
decode would raise inside `drink.short()` and surface as Flask's default
500. -/
def get_drinks (s : Storage) : Response :=
  match mapOpt Drink.short (sortById s.rows) with
  | some ds => okDrinks ds
  | none => internal_server_error

/-- Body of `GET /drinks-detail` (`api.py` 50-61) after the auth gate:
every drink in long form, ordered by ascending id. -/
def get_drinks_detail_core (s : Storage) : Response :=
  match mapOpt Drink.long (sortById s.rows) with
  | some ds => okDrinks ds
  | none => internal_server_error

/-- `Drink.query.filter(Drink.id == id).one_or_none()`. -/
def findDrink (s : Storage) (id : Nat) : Option Drink :=
  s.rows.find? (fun d => d.id == id)

/-- Body of `POST /drinks` (`api.py` 71-91) after the auth gate. The
membership test on line 76 is `'title' and 'recipe' not in body`, which
by Python semantics only checks `recipe`; a missing `title` then raises
`KeyError` at `body['title']` (line 79), an unhandled exception, before
any row is inserted. On success the new row stores
`json.dumps(body['recipe'])` and the response carries the long form.
The returned number counts Drink Store operations performed. -/
def post_drinks_core (body : JObj) (s : Storage) : Response × Storage × Nat :=
  match body.lookup "recipe" with
  | none => (unprocessable, s, 0)
  | some recipeV =>
    match body.lookup "title" with
    | none => (internal_server_error, s, 0)
    | some titleV =>
      let d : Drink := ⟨s.nextId, titleV, serJson recipeV⟩
      let s2 : Storage := ⟨s.rows ++ [d], s.nextId + 1⟩
      match d.long with
      | some lv => (okDrinks [lv], s2, 1)
      | none => (internal_server_error, s2, 1)

/-- The `if title:` block of the PATCH handler (`api.py` 114-115):
replace `title` only when the body supplies a truthy value. -/
def patchTitle (d : Drink) (body : JObj) : Drink :=
  match body.lookup "title" with
  | some t => if jsonTruthy t then ⟨d.id, t, d.recipe⟩ else d
  | none => d

/-- The `if recipe:` block of the PATCH handler (`api.py` 116-117):
replace `recipe` with `json.dumps(body['recipe'])` only when the body
supplies a truthy value. -/
def patchRecipe (d : Drink) (body : JObj) : Drink :=
  match body.lookup "recipe" with
  | some r => if jsonTruthy r then ⟨d.id, d.title, serJson r⟩ else d
  | none => d

/-- Body of `PATCH /drinks/{id}` (`api.py` 103-127) after the auth gate:
404 when the row is absent; otherwise `title` and `recipe` are replaced
only when the body supplies a truthy value (`if title:` / `if recipe:`),
the row is committed, and the long form is returned. -/
def patch_drinks_core (id : Nat) (body : JObj) (s : Storage) :
    Response × Storage × Nat :=
  match findDrink s id with
  | none => (resource_not_found, s, 1)
  | some d =>
    let d2 : Drink := patchRecipe (patchTitle d body) body
    let s2 : Storage := ⟨s.rows.map (fun e => if e.id == id then d2 else e), s.nextId⟩
    match d2.long with
    | some lv => (okDrinks [lv], s2, 2)
    | none => (internal_server_error, s2, 2)

/-- Body of `DELETE /drinks/{id}` (`api.py` 138-153) after the auth gate:
404 when the row is absent; otherwise the row is removed and the
response is `success` with the deleted id. -/
def delete_drinks_core (id : Nat) (s : Storage) : Response × Storage × Nat :=
  match findDrink s id with
  | none => (resource_not_found, s, 1)
  | some _ =>
    (⟨200, .json (jobj [("success", .bool true), ("deleted", .num (id : Int))])⟩,
     ⟨s.rows.filter (fun d => d.id != id), s.nextId⟩, 2)

/-- The gate composed around every protected handler: on any
`requires_auth` failure the `AuthError` handler renders the envelope and
the store is never touched (zero store calls); on success the handler
body runs with the decoded claims. -/
def runGated (permission : String) (auth : AuthCtx) (s : Storage)
    (handler : Claims → Storage → Response × Storage × Nat) :
    Response × Storage × Nat :=
  match requires_auth permission auth with
  | .error e => (auth_error e, s, 0)
  | .ok c => handler c s

/-- `GET /drinks-detail` with its `requires_auth('get:drinks-detail')` gate. -/
def get_drinks_detail (auth : AuthCtx) (s : Storage) : Response × Storage × Nat :=
  runGated "get:drinks-detail" auth s (fun _ s2 => (get_drinks_detail_core s2, s2, 1))

/-- `POST /drinks` with its `requires_auth('post:drinks')` gate. -/
def post_drinks (auth : AuthCtx) (body : JObj) (s : Storage) :
    Response × Storage × Nat :=
  runGated "post:drinks" auth s (fun _ => post_drinks_core body)

/-- `PATCH /drinks/{id}` with its `requires_auth('patch:drinks')` gate. -/
def patch_drinks (auth : AuthCtx) (id : Nat) (body : JObj) (s : Storage) :
    Response × Storage × Nat :=
  runGated "patch:drinks" auth s (fun _ => patch_drinks_core id body)

/-- `DELETE /drinks/{id}` with its `requires_auth('delete:drinks')` gate. -/
def delete_drinks (auth : AuthCtx) (id : Nat) (s : Storage) :
    Response × Storage × Nat :=
  runGated "delete:drinks" auth s (fun _ => delete_drinks_core id)

/-- The error conditions the application can render. -/
inductive ErrCond where
  | notFound
  | unprocessableEntity
  | authFailure (e : AuthErrorData)
  | unhandled
  deriving DecidableEq, Repr

/-- Error rendering of the application: the three registered handlers
produce the JSON envelope; an uncaught exception falls through to
Flask's default 500 page. -/
def errorResponse : ErrCond → Response
  | .notFound => resource_not_found
  | .unprocessableEntity => unprocessable
  | .authFailure e => auth_error e
  | .unhandled => internal_server_error

/-- The error envelope shape of the spec: a JSON body
`success=false, error=<status>, message=<string>`. -/
def isEnvelope (r : Response) : Prop :=
  ∃ msg, r.body = .json (jobj [("success", .bool false),
                               ("error", .num (r.status : Int)),
                               ("message", .str msg)])

/-- Store well-formedness: every persisted recipe is the serialization of
some structured value (the invariant of spec §3). -/
def storeWF (s : Storage) : Prop := ∀ d ∈ s.rows, ∃ v, d.recipe = serJson v

/-- Primary-key uniqueness of row ids. -/
def idsNodup (s : Storage) : Prop := (s.rows.map Drink.id).Nodup

/-- Token verification succeeded (regardless of permissions). -/
def authVerified : AuthCtx → Bool
  | .verified _ => true
  | _ => false

/-- Long form of a row whose recipe is a canonical serialization. -/
theorem long_of_ser (d : Drink) (v : Json) (h : d.recipe = serJson v) :
    d.long = some (jobj [("id", .num (d.id : Int)), ("title", d.title), ("recipe", v)]) := by
  unfold Drink.long
  rw [h, jparse_serJson]

/-- Short form of a row whose recipe is a canonical serialization. -/
theorem short_of_ser (d : Drink) (v : Json) (h : d.recipe = serJson v) :
    d.short = some (jobj [("id", .num (d.id : Int)), ("title", d.title),
                          ("recipe", stripParts v)]) := by
  unfold Drink.short
  rw [h, jparse_serJson]

/-- Short forms of well-formed rows all succeed. -/
theorem mapOpt_short_ex : ∀ l : List Drink, (∀ d ∈ l, ∃ v, d.recipe = serJson v) →
    ∃ ds, mapOpt Drink.short l = some ds ∧ (l = [] → ds = []) := by
  intro l
  induction l with
  | nil => exact fun _ => ⟨[], rfl, fun _ => rfl⟩
  | cons d t ih =>
    intro h
    obtain ⟨v, hv⟩ := h d (by simp)
    obtain ⟨ds, hds, _⟩ := ih (fun e he => h e (by simp [he]))
    refine ⟨jobj [("id", .num (d.id : Int)), ("title", d.title),
      ("recipe", stripParts v)] :: ds, ?_, fun hc => by cases hc⟩
    rw [mapOpt, short_of_ser d v hv, hds]

/-- Long forms of well-formed rows all succeed. -/
theorem mapOpt_long_ex : ∀ l : List Drink, (∀ d ∈ l, ∃ v, d.recipe = serJson v) →
    ∃ ds, mapOpt Drink.long l = some ds := by
  intro l
  induction l with
  | nil => exact fun _ => ⟨[], rfl⟩
  | cons d t ih =>
    intro h
    obtain ⟨v, hv⟩ := h d (by simp)
    obtain ⟨ds, hds⟩ := ih (fun e he => h e (by simp [he]))
    refine ⟨jobj [("id", .num (d.id : Int)), ("title", d.title), ("recipe", v)] :: ds, ?_⟩
    rw [mapOpt, long_of_ser d v hv, hds]

/-- Insertion produces a permutation of consing. -/
theorem insertById_perm (d : Drink) : ∀ l : List Drink, (insertById d l).Perm (d :: l) := by
  intro l
  induction l with
  | nil => rw [insertById]
  | cons e es ih =>
    rw [insertById]
    by_cases h : d.id ≤ e.id
    · rw [if_pos h]
    · rw [if_neg h]
      exact (List.Perm.cons e ih).trans (List.Perm.swap d e es)

/-- Sorting permutes the rows. -/
theorem sortById_perm : ∀ l : List Drink, (sortById l).Perm l := by
  intro l
  induction l with
  | nil => rw [sortById]
  | cons d ds ih =>
    rw [sortById]
    exact (insertById_perm d (sortById ds)).trans (List.Perm.cons d ih)

/-- Membership in an insertion. -/
theorem mem_insertById (x d : Drink) (l : List Drink) :
    x ∈ insertById d l ↔ x = d ∨ x ∈ l := by
  rw [(insertById_perm d l).mem_iff]
  simp

/-- Insertion preserves ascending-id ordering. -/
theorem insertById_pairwise (d : Drink) : ∀ l : List Drink,
    l.Pairwise (fun a b => a.id ≤ b.id) →
    (insertById d l).Pairwise (fun a b => a.id ≤ b.id) := by
  intro l
  induction l with
  | nil => intro _; rw [insertById]; exact List.pairwise_singleton _ d
  | cons e es ih =>
    intro h
    rw [List.pairwise_cons] at h
    rw [insertById]
    by_cases hle : d.id ≤ e.id
    · rw [if_pos hle]
      refine List.Pairwise.cons ?_ (List.Pairwise.cons h.1 h.2)
      intro x hx
      rw [List.mem_cons] at hx
      rcases hx with rfl | hx
      · exact hle
      · exact le_trans hle (h.1 x hx)
    · rw [if_neg hle]
      refine List.Pairwise.cons ?_ (ih h.2)
      intro x hx
      rcases (mem_insertById x d es).mp hx with hx | hx
      · subst hx; omega
      · exact h.1 x hx

/-- Sorting yields ascending ids. -/
theorem sortById_pairwise : ∀ l : List Drink,
    (sortById l).Pairwise (fun a b => a.id ≤ b.id) := by
  intro l
  induction l with
  | nil => rw [sortById]; exact List.Pairwise.nil
  | cons d ds ih => rw [sortById]; exact insertById_pairwise d (sortById ds) ih

/-- The title step never touches `id` or `recipe`. -/
theorem patchTitle_id_recipe (d : Drink) (body : JObj) :
    (patchTitle d body).id = d.id ∧ (patchTitle d body).recipe = d.recipe := by
  unfold patchTitle
  cases body.lookup "title" with
  | none => exact ⟨rfl, rfl⟩
  | some t =>
    dsimp only []
    by_cases h : jsonTruthy t = true
    · rw [if_pos h]; exact ⟨rfl, rfl⟩
    · rw [if_neg h]; exact ⟨rfl, rfl⟩

/-- The recipe step never touches `id` or `title`. -/
theorem patchRecipe_id_title (d : Drink) (body : JObj) :
    (patchRecipe d body).id = d.id ∧ (patchRecipe d body).title = d.title := by
  unfold patchRecipe
  cases body.lookup "recipe" with
  | none => exact ⟨rfl, rfl⟩
  | some r =>
    dsimp only []
    by_cases h : jsonTruthy r = true
    · rw [if_pos h]; exact ⟨rfl, rfl⟩
    · rw [if_neg h]; exact ⟨rfl, rfl⟩

/-- A falsy (or absent) supplied title leaves the row unchanged. -/
theorem patchTitle_falsy (d : Drink) (body : JObj)
    (h : ∀ t, body.lookup "title" = some t → jsonTruthy t = false) :
    patchTitle d body = d := by
  unfold patchTitle
  cases hT : body.lookup "title" with
  | none => rfl
  | some t =>
    dsimp only []
    rw [if_neg (by simp [h t hT])]

/-- A falsy (or absent) supplied recipe leaves the row unchanged. -/
theorem patchRecipe_falsy (d : Drink) (body : JObj)
    (h : ∀ r, body.lookup "recipe" = some r → jsonTruthy r = false) :
    patchRecipe d body = d := by
  unfold patchRecipe
  cases hR : body.lookup "recipe" with
  | none => rfl
  | some r =>
    dsimp only []
    rw [if_neg (by simp [h r hR])]

/-- A truthy supplied title replaces exactly the title. -/
theorem patchTitle_truthy (d : Drink) (body : JObj) (t : Json)
    (hT : body.lookup "title" = some t) (htr : jsonTruthy t = true) :
    patchTitle d body = ⟨d.id, t, d.recipe⟩ := by
  unfold patchTitle
  rw [hT]
  dsimp only []
  rw [if_pos htr]

/-- The recipe after the recipe step: unchanged, or a canonical
serialization of the supplied value. -/
theorem patchRecipe_recipe_cases (d : Drink) (body : JObj) :
    (patchRecipe d body).recipe = d.recipe ∨
    ∃ r, body.lookup "recipe" = some r ∧ jsonTruthy r = true ∧
      (patchRecipe d body).recipe = serJson r := by
  unfold patchRecipe
  cases hR : body.lookup "recipe" with
  | none => exact Or.inl rfl
  | some r =>
    dsimp only []
    by_cases h : jsonTruthy r = true
    · rw [if_pos h]
      exact Or.inr ⟨r, rfl, h, rfl⟩
    · rw [if_neg h]
      exact Or.inl rfl

/-- Erasing a key removes it from lookups. -/
theorem lookup_erase_self : ∀ (body : JObj) (k : String),
    (JObj.erase body k).lookup k = none
  | .nil, _ => rfl
  | .cons k2 v t, k => by
    unfold JObj.erase
    by_cases h : k2 = k
    · rw [if_pos h]
      exact lookup_erase_self t k
    · rw [if_neg h]
      unfold JObj.lookup
      rw [if_neg h]
      exact lookup_erase_self t k

/-- Erasing one key leaves other lookups unchanged. -/
theorem lookup_erase_ne : ∀ (body : JObj) (k k2 : String), ¬ k = k2 →
    (JObj.erase body k).lookup k2 = body.lookup k2
  | .nil, _, _, _ => rfl
  | .cons k3 v t, k, k2, h => by
    unfold JObj.erase
    by_cases h3 : k3 = k
    · rw [if_pos h3]
      conv_rhs => rw [JObj.lookup]
      rw [if_neg (by rw [h3]; exact h), lookup_erase_ne t k k2 h]
    · rw [if_neg h3]
      unfold JObj.lookup
      by_cases h32 : k3 = k2
      · rw [if_pos h32, if_pos h32]
      · rw [if_neg h32, if_neg h32]
        exact lookup_erase_ne t k k2 h

/-- Replacing the (unique) matching row by itself is the identity. -/
theorem map_replace_id (id : Nat) (d : Drink) : ∀ rows : List Drink,
    (∀ e ∈ rows, e.id = id → e = d) →
    rows.map (fun e => if e.id == id then d else e) = rows := by
  intro rows h
  induction rows with
  | nil => rfl
  | cons a t ih =>
    simp only [List.map_cons]
    by_cases ha : a.id = id
    · have had : a = d := h a (by simp) ha
      subst had
      rw [ite_self, ih (fun e he hid => h e (by simp [he]) hid)]
    · rw [if_neg (by simp [ha]), ih (fun e he hid => h e (by simp [he]) hid)]

/-- With unique ids, the row found for `id` is the only row with that id. -/
theorem unique_by_id (s : Storage) (hnodup : idsNodup s) (d : Drink) (id : Nat)
    (hf : findDrink s id = some d) : ∀ e ∈ s.rows, e.id = id → e = d := by
  intro e he hid
  have hd : d ∈ s.rows := List.mem_of_find?_eq_some hf
  have hdid : d.id = id := by simpa using List.find?_some hf
  exact List.inj_on_of_nodup_map hnodup he hd (by rw [hid, hdid])

/-- A sample structured recipe value. -/
def sampleRecipe : Json :=
  jarr [jobj [("name", .str "water"), ("color", .str "blue"), ("parts", .num 1)]]

/-- A sample stored drink with a canonical recipe. -/
def sampleDrink : Drink := ⟨1, .str "water", serJson sampleRecipe⟩

/-- A sample one-row store. -/
def sampleStore : Storage := ⟨[sampleDrink], 2⟩

/-- C1: the claim says a POST body missing `title` or missing `recipe`
fails with validation_error (422) and creates no row. On the code, a
missing `recipe` aborts with 422 and leaves the store untouched, but a
missing `title` slips past the membership test on line 76 (which, by
Python operator semantics, only checks `recipe`), and the handler dies
with `KeyError` at `body['title']` — an unhandled exception rendered as
HTTP 500, not 422. No row is created in either case. -/
theorem C1_post_missing_field (s : Storage) (rv tv : Json) :
    (post_drinks_core (JObj.ofList [("title", tv)]) s = (unprocessable, s, 0) ∧
      unprocessable.status = 422) ∧
    (post_drinks_core (JObj.ofList [("recipe", rv)]) s = (internal_server_error, s, 0) ∧
      internal_server_error.status = 500 ∧ ¬ internal_server_error.status = 422) :=
  ⟨⟨rfl, rfl⟩, rfl, rfl, by decide⟩

/-- Any request whose token does not verify is rejected by the gate with
a 401 `AuthError`. -/
theorem requires_auth_401 (p : String) (auth : AuthCtx) (h : authVerified auth = false) :
    ∃ e, requires_auth p auth = .error e ∧ e.status_code = 401 := by
  cases auth with
  | missingHeader => exact ⟨_, rfl, rfl⟩
  | malformedHeader => exact ⟨_, rfl, rfl⟩
  | invalidToken => exact ⟨_, rfl, rfl⟩
  | expiredToken => exact ⟨_, rfl, rfl⟩
  | invalidClaims => exact ⟨_, rfl, rfl⟩
  | verified c => simp [authVerified] at h

/-- C2: on every gated route (GET /drinks-detail, POST /drinks,
PATCH /drinks/id, DELETE /drinks/id), a request whose Authorization
header is missing or whose token fails verification yields HTTP 401, the
store is unchanged, and no Drink Store operation is invoked (store call
count 0). -/
theorem C2_auth_gate_short_circuits (auth : AuthCtx) (s : Storage) (body : JObj)
    (id : Nat) (h : authVerified auth = false) :
    (∃ e, get_drinks_detail auth s = (auth_error e, s, 0) ∧ (auth_error e).status = 401) ∧
    (∃ e, post_drinks auth body s = (auth_error e, s, 0) ∧ (auth_error e).status = 401) ∧
    (∃ e, patch_drinks auth id body s = (auth_error e, s, 0) ∧ (auth_error e).status = 401) ∧
    (∃ e, delete_drinks auth id s = (auth_error e, s, 0) ∧ (auth_error e).status = 401) := by
  obtain ⟨e1, he1, hs1⟩ := requires_auth_401 "get:drinks-detail" auth h
  obtain ⟨e2, he2, hs2⟩ := requires_auth_401 "post:drinks" auth h
  obtain ⟨e3, he3, hs3⟩ := requires_auth_401 "patch:drinks" auth h
  obtain ⟨e4, he4, hs4⟩ := requires_auth_401 "delete:drinks" auth h
  refine ⟨⟨e1, ?_, ?_⟩, ⟨e2, ?_, ?_⟩, ⟨e3, ?_, ?_⟩, ⟨e4, ?_, ?_⟩⟩
  · unfold get_drinks_detail runGated
    rw [he1]
  · show e1.status_code = 401
    exact hs1
  · unfold post_drinks runGated
    rw [he2]
  · show e2.status_code = 401
    exact hs2
  · unfold patch_drinks runGated
    rw [he3]
  · show e3.status_code = 401
    exact hs3
  · unfold delete_drinks runGated
    rw [he4]
  · show e4.status_code = 401
    exact hs4

/-- C2 witness: a request with no Authorization header against the
sample store. -/
theorem C2_auth_gate_witness :
    authVerified AuthCtx.missingHeader = false ∧
    ((∃ e, get_drinks_detail AuthCtx.missingHeader sampleStore =
        (auth_error e, sampleStore, 0) ∧ (auth_error e).status = 401) ∧
     (∃ e, post_drinks AuthCtx.missingHeader (JObj.ofList []) sampleStore =
        (auth_error e, sampleStore, 0) ∧ (auth_error e).status = 401) ∧
     (∃ e, patch_drinks AuthCtx.missingHeader 1 (JObj.ofList []) sampleStore =
        (auth_error e, sampleStore, 0) ∧ (auth_error e).status = 401) ∧
     (∃ e, delete_drinks AuthCtx.missingHeader 1 sampleStore =
        (auth_error e, sampleStore, 0) ∧ (auth_error e).status = 401)) :=
  ⟨rfl, C2_auth_gate_short_circuits AuthCtx.missingHeader sampleStore (JObj.ofList []) 1 rfl⟩

/-- C4 counterexample: an unhandled exception is a non-2xx (500)
response whose body is Flask's default HTML page, not the JSON envelope
— the application registers no 500 error handler. -/
theorem C4_unhandled_500_no_envelope :
    (errorResponse ErrCond.unhandled).status = 500 ∧
    300 ≤ (errorResponse ErrCond.unhandled).status ∧
    ¬ isEnvelope (errorResponse ErrCond.unhandled) := by
  refine ⟨rfl, by decide, ?_⟩
  rintro ⟨msg, hmsg⟩
  cases hmsg

/-- C4 (amended): every non-2xx response produced by one of the
registered error handlers — 422, 404, and `AuthError` (the 400/401/403
auth failures) — carries the JSON envelope
`success=false, error=<status>, message=<string>` with `error` equal to
the HTTP status; unhandled errors fall through to the framework default
and are exempt. -/
theorem C4_registered_handlers_envelope (e : ErrCond) (h : ¬ e = ErrCond.unhandled) :
    isEnvelope (errorResponse e) := by
  cases e with
  | notFound => exact ⟨"resource not found", rfl⟩
  | unprocessableEntity => exact ⟨"unprocessable", rfl⟩
  | authFailure a => exact ⟨a.description, rfl⟩
  | unhandled => exact absurd rfl h

/-- C4 witness: the 404 handler's response carries the envelope; so does
a 401 auth failure. -/
theorem C4_registered_handlers_witness :
    (¬ ErrCond.notFound = ErrCond.unhandled ∧ isEnvelope (errorResponse ErrCond.notFound)) ∧
    (¬ ErrCond.authFailure ⟨401, "invalid_token"⟩ = ErrCond.unhandled ∧
      isEnvelope (errorResponse (ErrCond.authFailure ⟨401, "invalid_token"⟩))) :=
  ⟨⟨by decide, C4_registered_handlers_envelope ErrCond.notFound (by decide)⟩,
   ⟨by decide, C4_registered_handlers_envelope (ErrCond.authFailure ⟨401, "invalid_token"⟩)
      (by decide)⟩⟩

/-- C5: GET /drinks requires no permission, and on any well-formed store
returns HTTP 200 with `success=true` and the short-form projection
(parts omitted by `Drink.short`) of all stored drinks ordered by
ascending id; it never fails, and the empty store yields an empty
array. -/
theorem C5_get_drinks_public_short (s : Storage) (hwf : storeWF s) :
    requiredPermission Route.drinksGet = none ∧
    ∃ ds, mapOpt Drink.short (sortById s.rows) = some ds ∧
      get_drinks s = okDrinks ds ∧
      (okDrinks ds).status = 200 ∧
      (sortById s.rows).Pairwise (fun a b => a.id ≤ b.id) ∧
      (sortById s.rows).Perm s.rows ∧
      (s.rows = [] → ds = []) := by
  refine ⟨rfl, ?_⟩
  obtain ⟨ds, hds, hnil⟩ := mapOpt_short_ex (sortById s.rows)
    (fun d hd => hwf d ((sortById_perm s.rows).mem_iff.mp hd))
  refine ⟨ds, hds, ?_, rfl, sortById_pairwise s.rows, sortById_perm s.rows, ?_⟩
  · unfold get_drinks
    rw [hds]
  · intro h0
    apply hnil
    rw [h0]
    rfl

/-- C5 witness: the sample store and the empty store, evaluated. -/
theorem C5_get_drinks_witness :
    storeWF sampleStore ∧
    (requiredPermission Route.drinksGet = none ∧
      ∃ ds, mapOpt Drink.short (sortById sampleStore.rows) = some ds ∧
        get_drinks sampleStore = okDrinks ds ∧
        (okDrinks ds).status = 200 ∧
        (sortById sampleStore.rows).Pairwise (fun a b => a.id ≤ b.id) ∧
        (sortById sampleStore.rows).Perm sampleStore.rows ∧
        (sampleStore.rows = [] → ds = [])) := by
  have hwf : storeWF sampleStore := by
    intro d hd
    simp only [sampleStore, sampleDrink] at hd
    rw [List.mem_singleton] at hd
    subst hd
    exact ⟨sampleRecipe, rfl⟩
  exact ⟨hwf, C5_get_drinks_public_short sampleStore hwf⟩

/-- C6: deleting an existing id returns HTTP 200 with `deleted` equal to
the requested id, removes every row with that id (so the id no longer
appears in `list_all`), and a second DELETE of the same id yields 404
(`resource not found`) with the store unchanged. -/
theorem C6_delete_then_404 (s : Storage) (id : Nat) (d : Drink)
    (hfind : findDrink s id = some d) :
    delete_drinks_core id s =
      (⟨200, .json (jobj [("success", .bool true), ("deleted", .num (id : Int))])⟩,
       ⟨s.rows.filter (fun e => e.id != id), s.nextId⟩, 2) ∧
    (∀ e ∈ sortById ((delete_drinks_core id s).2.1.rows), ¬ e.id = id) ∧
    delete_drinks_core id (delete_drinks_core id s).2.1 =
      (resource_not_found, (delete_drinks_core id s).2.1, 1) ∧
    resource_not_found.status = 404 := by
  have h1 : delete_drinks_core id s =
      (⟨200, .json (jobj [("success", .bool true), ("deleted", .num (id : Int))])⟩,
       ⟨s.rows.filter (fun e => e.id != id), s.nextId⟩, 2) := by
    unfold delete_drinks_core
    rw [hfind]
  refine ⟨h1, ?_, ?_, rfl⟩
  · intro e he hid
    rw [h1] at he
    have hmem := (sortById_perm _).mem_iff.mp he
    rw [List.mem_filter] at hmem
    simp [hid] at hmem
  · rw [h1]
    unfold delete_drinks_core findDrink
    rw [List.find?_eq_none.mpr ?_]
    intro x hx
    rw [List.mem_filter] at hx
    simp only [bne_iff_ne, ne_eq] at hx
    simp [hx.2]

/-- C6 witness: deleting the sample drink from the sample store. -/
theorem C6_delete_witness :
    findDrink sampleStore 1 = some sampleDrink ∧
    (delete_drinks_core 1 sampleStore =
      (⟨200, .json (jobj [("success", .bool true), ("deleted", .num (1 : Int))])⟩,
       ⟨sampleStore.rows.filter (fun e => e.id != 1), sampleStore.nextId⟩, 2) ∧
    (∀ e ∈ sortById ((delete_drinks_core 1 sampleStore).2.1.rows), ¬ e.id = 1) ∧
    delete_drinks_core 1 (delete_drinks_core 1 sampleStore).2.1 =
      (resource_not_found, (delete_drinks_core 1 sampleStore).2.1, 1) ∧
    resource_not_found.status = 404) :=
  ⟨rfl, C6_delete_then_404 sampleStore 1 sampleDrink rfl⟩

/-- Store state after a PATCH that found its row: the matching rows are
replaced by the updated record, everything else is untouched, and this
holds whether or not the final long-form rendering succeeds. -/
theorem patch_found_state (s : Storage) (id : Nat) (body : JObj) (d : Drink)
    (hf : findDrink s id = some d) :
    (patch_drinks_core id body s).2.1 =
      ⟨s.rows.map (fun e => if e.id == id then patchRecipe (patchTitle d body) body else e),
       s.nextId⟩ := by
  unfold patch_drinks_core
  rw [hf]
  dsimp only []
  cases hl : Drink.long (patchRecipe (patchTitle d body) body) with
  | some lv => rfl
  | none => rfl

/-- A PATCH that found a row with a decodable recipe responds 200. -/
theorem patch_found_200 (s : Storage) (id : Nat) (body : JObj) (d : Drink)
    (hf : findDrink s id = some d) (hwfd : ∃ v, d.recipe = serJson v) :
    (patch_drinks_core id body s).1.status = 200 := by
  obtain ⟨v, hv⟩ := hwfd
  have hrec : ∃ v2, (patchRecipe (patchTitle d body) body).recipe = serJson v2 := by
    rcases patchRecipe_recipe_cases (patchTitle d body) body with h | ⟨r, _, _, h⟩
    · exact ⟨v, by rw [h, (patchTitle_id_recipe d body).2, hv]⟩
    · exact ⟨r, h⟩
  obtain ⟨v2, hv2⟩ := hrec
  unfold patch_drinks_core
  rw [hf]
  dsimp only []
  rw [long_of_ser _ v2 hv2]
  rfl

/-- C3: with unique ids, a PATCH supplying only a truthy title replaces
exactly that drink's title: its id and recipe are kept, and every other
row is untouched. -/
theorem C3_patch_title_only (s : Storage) (id : Nat) (body : JObj) (d : Drink) (t : Json)
    (hnodup : idsNodup s) (hfind : findDrink s id = some d)
    (hT : body.lookup "title" = some t) (htr : jsonTruthy t = true)
    (hR : body.lookup "recipe" = none) :
    (patch_drinks_core id body s).2.1 =
      ⟨s.rows.map (fun e => if e.id = id then ⟨e.id, t, e.recipe⟩ else e), s.nextId⟩ ∧
    ∀ e ∈ s.rows, ¬ e.id = id → e ∈ (patch_drinks_core id body s).2.1.rows := by
  have hd2 : patchRecipe (patchTitle d body) body = ⟨d.id, t, d.recipe⟩ := by
    rw [patchTitle_truthy d body t hT htr]
    unfold patchRecipe
    rw [hR]
  have hstate := patch_found_state s id body d hfind
  rw [hd2] at hstate
  have hmapeq : s.rows.map (fun e => if e.id == id then (⟨d.id, t, d.recipe⟩ : Drink) else e)
      = s.rows.map (fun e => if e.id = id then (⟨e.id, t, e.recipe⟩ : Drink) else e) := by
    apply List.map_congr_left
    intro e he
    by_cases hid : e.id = id
    · have hed : e = d := unique_by_id s hnodup d id hfind e he hid
      rw [if_pos (by simp [hid]), if_pos hid, hed]
    · rw [if_neg (by simp [hid]), if_neg hid]
  constructor
  · rw [hstate, hmapeq]
  · intro e he hne
    rw [hstate]
    exact List.mem_map.mpr ⟨e, he, by simp [hne]⟩

/-- C3 witness: renaming the sample drink. -/
theorem C3_patch_title_witness :
    idsNodup sampleStore ∧
    ((patch_drinks_core 1 (JObj.ofList [("title", .str "mocha")]) sampleStore).2.1 =
      ⟨sampleStore.rows.map
        (fun e => if e.id = 1 then ⟨e.id, .str "mocha", e.recipe⟩ else e),
       sampleStore.nextId⟩ ∧
    ∀ e ∈ sampleStore.rows, ¬ e.id = 1 →
      e ∈ (patch_drinks_core 1 (JObj.ofList [("title", .str "mocha")]) sampleStore).2.1.rows) :=
  ⟨by unfold idsNodup; decide,
   C3_patch_title_only sampleStore 1 (JObj.ofList [("title", .str "mocha")]) sampleDrink
     (.str "mocha") (by unfold idsNodup; decide) rfl rfl (by decide) rfl⟩

/-- A truthy supplied recipe replaces exactly the recipe, storing the
serialization of the supplied value. -/
theorem patchRecipe_truthy (d : Drink) (body : JObj) (r : Json)
    (hR : body.lookup "recipe" = some r) (htr : jsonTruthy r = true) :
    patchRecipe d body = ⟨d.id, d.title, serJson r⟩ := by
  unfold patchRecipe
  rw [hR]
  dsimp only []
  rw [if_pos htr]

/-- A PATCH that found its row, with unique ids and a body whose title
and recipe (if supplied at all) are falsy, is an identity on the store
and responds 200 with the unchanged long form. -/
theorem patch_found_falsy_resp (s : Storage) (id : Nat) (body : JObj) (d : Drink) (v : Json)
    (hnodup : idsNodup s) (hfind : findDrink s id = some d) (hv : d.recipe = serJson v)
    (hT : ∀ t, body.lookup "title" = some t → jsonTruthy t = false)
    (hR : ∀ r, body.lookup "recipe" = some r → jsonTruthy r = false) :
    patch_drinks_core id body s =
      (okDrinks [jobj [("id", .num (d.id : Int)), ("title", d.title), ("recipe", v)]],
       s, 2) := by
  unfold patch_drinks_core
  rw [hfind]
  dsimp only []
  rw [patchTitle_falsy d body hT, patchRecipe_falsy d body hR,
      long_of_ser d v hv,
      map_replace_id id d s.rows (unique_by_id s hnodup d id hfind)]

/-- Store and call count of a successful POST: the new row is appended
with the next id and the serialized recipe. -/
theorem post_found (body : JObj) (s : Storage) (rv tv : Json)
    (hR : body.lookup "recipe" = some rv) (hT : body.lookup "title" = some tv) :
    (post_drinks_core body s).2 =
      (⟨s.rows ++ [⟨s.nextId, tv, serJson rv⟩], s.nextId + 1⟩, 1) := by
  unfold post_drinks_core
  rw [hR, hT]
  dsimp only []
  cases hl : Drink.long ⟨s.nextId, tv, serJson rv⟩ with
  | some lv => rfl
  | none => rfl

/-- C7: on an existing id, a PATCH body supplying a falsy value for a
field behaves exactly as if the field were absent: the whole call result
equals the call with that key erased from the body, and the updated row
keeps that field at its prior value. -/
theorem C7_patch_falsy_as_absent (s : Storage) (id : Nat) (body : JObj) (d : Drink)
    (hfind : findDrink s id = some d) :
    ((∀ t, body.lookup "title" = some t → jsonTruthy t = false) →
      patch_drinks_core id body s = patch_drinks_core id (JObj.erase body "title") s ∧
      ∀ e ∈ (patch_drinks_core id body s).2.1.rows, e.id = id → e.title = d.title) ∧
    ((∀ r, body.lookup "recipe" = some r → jsonTruthy r = false) →
      patch_drinks_core id body s = patch_drinks_core id (JObj.erase body "recipe") s ∧
      ∀ e ∈ (patch_drinks_core id body s).2.1.rows, e.id = id → e.recipe = d.recipe) := by
  constructor
  · intro hT
    constructor
    · have h1 : patchTitle d body = d := patchTitle_falsy d body hT
      have h2 : patchTitle d (JObj.erase body "title") = d :=
        patchTitle_falsy d (JObj.erase body "title")
          (by intro t ht; rw [lookup_erase_self] at ht; exact Option.noConfusion ht)
      have h3 : patchRecipe d (JObj.erase body "title") = patchRecipe d body := by
        unfold patchRecipe
        rw [lookup_erase_ne body "title" "recipe" (by decide)]
      unfold patch_drinks_core
      rw [hfind]
      dsimp only []
      rw [h1, h2, h3]
    · intro e he hid
      rw [patch_found_state s id body d hfind] at he
      obtain ⟨a, ha, heq⟩ := List.mem_map.mp he
      by_cases hai : a.id = id
      · rw [if_pos (by simp [hai])] at heq
        subst heq
        rw [(patchRecipe_id_title (patchTitle d body) body).2, patchTitle_falsy d body hT]
      · rw [if_neg (by simp [hai])] at heq
        subst heq
        exact absurd hid hai
  · intro hR
    constructor
    · have h1 : patchRecipe (patchTitle d body) body = patchTitle d body :=
        patchRecipe_falsy (patchTitle d body) body hR
      have h2 : patchTitle d (JObj.erase body "recipe") = patchTitle d body := by
        unfold patchTitle
        rw [lookup_erase_ne body "recipe" "title" (by decide)]
      have h3 : patchRecipe (patchTitle d body) (JObj.erase body "recipe") =
          patchTitle d body :=
        patchRecipe_falsy (patchTitle d body) (JObj.erase body "recipe")
          (by intro r hr; rw [lookup_erase_self] at hr; exact Option.noConfusion hr)
      unfold patch_drinks_core
      rw [hfind]
      dsimp only []
      rw [h1, h2, h3]
    · intro e he hid
      rw [patch_found_state s id body d hfind] at he
      obtain ⟨a, ha, heq⟩ := List.mem_map.mp he
      by_cases hai : a.id = id
      · rw [if_pos (by simp [hai])] at heq
        subst heq
        rw [patchRecipe_falsy (patchTitle d body) body hR,
            (patchTitle_id_recipe d body).2]
      · rw [if_neg (by simp [hai])] at heq
        subst heq
        exact absurd hid hai

/-- C7 witness: a body carrying an empty-string title and an empty
recipe array against the sample store. -/
theorem C7_patch_falsy_witness :
    findDrink sampleStore 1 = some sampleDrink ∧
    (((∀ t, (JObj.ofList [("title", .str ""), ("recipe", jarr [])]).lookup "title" = some t →
        jsonTruthy t = false) →
      patch_drinks_core 1 (JObj.ofList [("title", .str ""), ("recipe", jarr [])]) sampleStore =
        patch_drinks_core 1
          (JObj.erase (JObj.ofList [("title", .str ""), ("recipe", jarr [])]) "title")
          sampleStore ∧
      ∀ e ∈ (patch_drinks_core 1 (JObj.ofList [("title", .str ""), ("recipe", jarr [])])
          sampleStore).2.1.rows, e.id = 1 → e.title = sampleDrink.title) ∧
    ((∀ r, (JObj.ofList [("title", .str ""), ("recipe", jarr [])]).lookup "recipe" = some r →
        jsonTruthy r = false) →
      patch_drinks_core 1 (JObj.ofList [("title", .str ""), ("recipe", jarr [])]) sampleStore =
        patch_drinks_core 1
          (JObj.erase (JObj.ofList [("title", .str ""), ("recipe", jarr [])]) "recipe")
          sampleStore ∧
      ∀ e ∈ (patch_drinks_core 1 (JObj.ofList [("title", .str ""), ("recipe", jarr [])])
          sampleStore).2.1.rows, e.id = 1 → e.recipe = sampleDrink.recipe)) :=
  ⟨rfl, C7_patch_falsy_as_absent sampleStore 1
    (JObj.ofList [("title", .str ""), ("recipe", jarr [])]) sampleDrink rfl⟩

/-- C8: recipes round-trip losslessly through serialize/parse; after a
successful create the new row stores the serialization of the supplied
recipe and parses back to it; after an update that replaced the recipe,
the updated row does too; and the store invariant (every persisted
recipe is a canonical serialization) is preserved by POST, PATCH and
DELETE alike. -/
theorem C8_recipe_roundtrip (s : Storage) (id : Nat) (body : JObj) (hwf : storeWF s) :
    (∀ v : Json, jparse (serJson v) = some v) ∧
    (∀ rv tv, body.lookup "recipe" = some rv → body.lookup "title" = some tv →
      ∃ dnew, dnew ∈ (post_drinks_core body s).2.1.rows ∧
        dnew.recipe = serJson rv ∧ jparse dnew.recipe = some rv) ∧
    (∀ d rv, findDrink s id = some d → body.lookup "recipe" = some rv →
      jsonTruthy rv = true →
      ∀ e ∈ (patch_drinks_core id body s).2.1.rows, e.id = id →
        e.recipe = serJson rv ∧ jparse e.recipe = some rv) ∧
    storeWF (post_drinks_core body s).2.1 ∧
    storeWF (patch_drinks_core id body s).2.1 ∧
    storeWF (delete_drinks_core id s).2.1 := by
  refine ⟨jparse_serJson, ?_, ?_, ?_, ?_, ?_⟩
  · intro rv tv hR hT
    have h2 : (post_drinks_core body s).2.1 =
        ⟨s.rows ++ [⟨s.nextId, tv, serJson rv⟩], s.nextId + 1⟩ := by
      rw [post_found body s rv tv hR hT]
    refine ⟨⟨s.nextId, tv, serJson rv⟩, ?_, rfl, jparse_serJson rv⟩
    rw [h2]
    exact List.mem_append_right _ (List.mem_singleton.mpr rfl)
  · intro d rv hf hR htr e he hid
    rw [patch_found_state s id body d hf] at he
    obtain ⟨a, ha, heq⟩ := List.mem_map.mp he
    by_cases hai : a.id = id
    · rw [if_pos (by simp [hai])] at heq
      subst heq
      rw [patchRecipe_truthy (patchTitle d body) body rv hR htr]
      exact ⟨rfl, jparse_serJson rv⟩
    · rw [if_neg (by simp [hai])] at heq
      subst heq
      exact absurd hid hai
  · cases hR : body.lookup "recipe" with
    | none =>
      unfold post_drinks_core
      rw [hR]
      exact hwf
    | some rv =>
      cases hT : body.lookup "title" with
      | none =>
        unfold post_drinks_core
        rw [hR, hT]
        exact hwf
      | some tv =>
        intro e he
        rw [show (post_drinks_core body s).2.1 =
            (⟨s.rows ++ [⟨s.nextId, tv, serJson rv⟩], s.nextId + 1⟩ : Storage) from
          by rw [post_found body s rv tv hR hT]] at he
        rw [List.mem_append] at he
        rcases he with he | he
        · exact hwf e he
        · rw [List.mem_singleton] at he
          subst he
          exact ⟨rv, rfl⟩
  · cases hf : findDrink s id with
    | none =>
      unfold patch_drinks_core
      rw [hf]
      exact hwf
    | some d =>
      intro e he
      rw [patch_found_state s id body d hf] at he
      obtain ⟨a, ha, heq⟩ := List.mem_map.mp he
      by_cases hai : a.id = id
      · rw [if_pos (by simp [hai])] at heq
        subst heq
        rcases patchRecipe_recipe_cases (patchTitle d body) body with hrec | ⟨r, _, _, hrec⟩
        · obtain ⟨v, hv⟩ := hwf d (List.mem_of_find?_eq_some hf)
          exact ⟨v, by rw [hrec, (patchTitle_id_recipe d body).2, hv]⟩
        · exact ⟨r, hrec⟩
      · rw [if_neg (by simp [hai])] at heq
        subst heq
        exact hwf a ha
  · cases hf : findDrink s id with
    | none =>
      unfold delete_drinks_core
      rw [hf]
      exact hwf
    | some d =>
      unfold delete_drinks_core
      rw [hf]
      dsimp only []
      intro e he
      rw [List.mem_filter] at he
      exact hwf e he.1

/-- C8 witness: a create body carrying a fresh title and the sample
recipe against the sample store. -/
theorem C8_recipe_roundtrip_witness :
    storeWF sampleStore ∧
    ((∀ v : Json, jparse (serJson v) = some v) ∧
     (∀ rv tv,
        (JObj.ofList [("title", .str "latte"), ("recipe", sampleRecipe)]).lookup "recipe" =
          some rv →
        (JObj.ofList [("title", .str "latte"), ("recipe", sampleRecipe)]).lookup "title" =
          some tv →
        ∃ dnew, dnew ∈ (post_drinks_core
            (JObj.ofList [("title", .str "latte"), ("recipe", sampleRecipe)])
            sampleStore).2.1.rows ∧
          dnew.recipe = serJson rv ∧ jparse dnew.recipe = some rv) ∧
     (∀ d rv, findDrink sampleStore 1 = some d →
        (JObj.ofList [("title", .str "latte"), ("recipe", sampleRecipe)]).lookup "recipe" =
          some rv →
        jsonTruthy rv = true →
        ∀ e ∈ (patch_drinks_core 1
            (JObj.ofList [("title", .str "latte"), ("recipe", sampleRecipe)])
            sampleStore).2.1.rows, e.id = 1 →
          e.recipe = serJson rv ∧ jparse e.recipe = some rv) ∧
     storeWF (post_drinks_core
        (JObj.ofList [("title", .str "latte"), ("recipe", sampleRecipe)])
        sampleStore).2.1 ∧
     storeWF (patch_drinks_core 1
        (JObj.ofList [("title", .str "latte"), ("recipe", sampleRecipe)])
        sampleStore).2.1 ∧
     storeWF (delete_drinks_core 1 sampleStore).2.1) := by
  have hwf : storeWF sampleStore := by
    intro d hd
    simp only [sampleStore, sampleDrink] at hd
    rw [List.mem_singleton] at hd
    subst hd
    exact ⟨sampleRecipe, rfl⟩
  exact ⟨hwf, C8_recipe_roundtrip sampleStore 1
    (JObj.ofList [("title", .str "latte"), ("recipe", sampleRecipe)]) hwf⟩

/-- C9: a failed mutation leaves the store exactly as it was: a PATCH or
DELETE of an absent id answers 404 and returns the store unchanged (one
store call, the lookup), and a POST rejected by validation performs no
store call at all. -/
theorem C9_failed_mutation_atomic (s : Storage) (id : Nat) (body : JObj)
    (h : findDrink s id = none) :
    patch_drinks_core id body s = (resource_not_found, s, 1) ∧
    delete_drinks_core id s = (resource_not_found, s, 1) ∧
    (body.lookup "recipe" = none →
      post_drinks_core body s = (unprocessable, s, 0)) ∧
    resource_not_found.status = 404 := by
  refine ⟨?_, ?_, ?_, rfl⟩
  · unfold patch_drinks_core
    rw [h]
  · unfold delete_drinks_core
    rw [h]
  · intro hR
    unfold post_drinks_core
    rw [hR]

/-- C9 witness: mutations aimed at the absent id 7 of the sample
store. -/
theorem C9_failed_mutation_witness :
    findDrink sampleStore 7 = none ∧
    (patch_drinks_core 7 (JObj.ofList []) sampleStore = (resource_not_found, sampleStore, 1) ∧
     delete_drinks_core 7 sampleStore = (resource_not_found, sampleStore, 1) ∧
     ((JObj.ofList []).lookup "recipe" = none →
       post_drinks_core (JObj.ofList []) sampleStore = (unprocessable, sampleStore, 0)) ∧
     resource_not_found.status = 404) :=
  ⟨rfl, C9_failed_mutation_atomic sampleStore 7 (JObj.ofList []) rfl⟩

/-- C10: a PATCH of an existing id through the auth gate with a verified
token carrying the patch permission, whose body supplies neither field
truthily, answers 200 with the unchanged long form and is an identity on
the store. -/
theorem C10_patch_noop_identity (s : Storage) (id : Nat) (body : JObj) (d : Drink)
    (v : Json) (perms : List String)
    (hnodup : idsNodup s) (hfind : findDrink s id = some d)
    (hv : d.recipe = serJson v) (hperm : "patch:drinks" ∈ perms)
    (hT : ∀ t, body.lookup "title" = some t → jsonTruthy t = false)
    (hR : ∀ r, body.lookup "recipe" = some r → jsonTruthy r = false) :
    patch_drinks (AuthCtx.verified ⟨some perms⟩) id body s =
      (okDrinks [jobj [("id", .num (d.id : Int)), ("title", d.title), ("recipe", v)]],
       s, 2) ∧
    (okDrinks [jobj [("id", .num (d.id : Int)), ("title", d.title),
       ("recipe", v)]]).status = 200 ∧
    d.long = some (jobj [("id", .num (d.id : Int)), ("title", d.title), ("recipe", v)]) := by
  have hok : requires_auth "patch:drinks" (AuthCtx.verified ⟨some perms⟩) =
      .ok ⟨some perms⟩ := by
    unfold requires_auth
    dsimp only []
    rw [if_pos hperm]
  refine ⟨?_, rfl, long_of_ser d v hv⟩
  unfold patch_drinks runGated
  rw [hok]
  exact patch_found_falsy_resp s id body d v hnodup hfind hv hT hR

/-- C10 witness: an authorized PATCH of the sample drink with an empty
body. -/
theorem C10_patch_noop_witness :
    idsNodup sampleStore ∧ findDrink sampleStore 1 = some sampleDrink ∧
    sampleDrink.recipe = serJson sampleRecipe ∧
    "patch:drinks" ∈ ["patch:drinks"] ∧
    (patch_drinks (AuthCtx.verified ⟨some ["patch:drinks"]⟩) 1 (JObj.ofList []) sampleStore =
      (okDrinks [jobj [("id", .num (sampleDrink.id : Int)), ("title", sampleDrink.title),
         ("recipe", sampleRecipe)]], sampleStore, 2) ∧
     (okDrinks [jobj [("id", .num (sampleDrink.id : Int)), ("title", sampleDrink.title),
        ("recipe", sampleRecipe)]]).status = 200 ∧
     sampleDrink.long = some (jobj [("id", .num (sampleDrink.id : Int)),
        ("title", sampleDrink.title), ("recipe", sampleRecipe)])) :=
  ⟨by unfold idsNodup; decide, rfl, rfl, by decide,
   C10_patch_noop_identity sampleStore 1 (JObj.ofList []) sampleDrink sampleRecipe
     ["patch:drinks"] (by unfold idsNodup; decide) rfl rfl (by decide)
     (by intro t ht; exact Option.noConfusion ht)
     (by intro r hr; exact Option.noConfusion hr)⟩
